import Mathlib

/-!
Verification development for the OBJ model importer (`model_obj.h` /
`model_obj.cpp`).  The C++ code is shallowly embedded: `float` scalars are
modelled as `ℚ` (the modelled operations are comparisons, copies, additions,
subtractions, negations and divisions on values read from file tokens, which
the rational embedding tracks exactly wherever a theorem below relies on it),
`std::vector` as `List`, `std::map<int, std::vector<int>>` and
`std::map<std::string, int>` as association lists with `std::map` lookup
semantics, and the token-level `fscanf` parsers as folds over structured
directive lists (the "token stream abstraction").
-/

namespace ModelObj

/-- `Model::Vertex` (model_obj.h): position(3), texCoord(2), normal(3),
tangent(4 = xyz + handedness), bitangent(3).  `memcmp` over the struct (it
has no padding: 15 consecutive `float`s) is structural equality. -/
structure Vertex where
  px : ℚ
  py : ℚ
  pz : ℚ
  tu : ℚ
  tv : ℚ
  nx : ℚ
  ny : ℚ
  nz : ℚ
  tanx : ℚ
  tany : ℚ
  tanz : ℚ
  tanw : ℚ
  bitx : ℚ
  bity : ℚ
  bitz : ℚ
  deriving DecidableEq, Repr

/-- The all-zero vertex: the value a C aggregate initialization
`Vertex vertex = {0.0f, ...}` produces (fields not listed are
value-initialized to 0). -/
def Vertex.zero : Vertex := ⟨0, 0, 0, 0, 0, 0, 0, 0, 0, 0, 0, 0, 0, 0, 0⟩

/-- `Model::Material` (model_obj.h): ambient/diffuse/specular RGBA,
shininess, alpha, name, color-map and bump-map file names. -/
structure Material where
  ambient : ℚ × ℚ × ℚ × ℚ
  diffuse : ℚ × ℚ × ℚ × ℚ
  specular : ℚ × ℚ × ℚ × ℚ
  shininess : ℚ
  alpha : ℚ
  name : String
  colorMapFilename : String
  bumpMapFilename : String
  deriving DecidableEq, Repr

/-- A value-initialized `Material` (what `std::vector<Material>::resize`
fills new slots with: zero floats, empty strings). -/
def Material.zero : Material := ⟨(0,0,0,0), (0,0,0,0), (0,0,0,0), 0, 0, "", "", ""⟩

/-- The defaults every `newmtl` (and the synthesized "default" material of
`importGeometryFirstPass`) starts from: ambient (0.2,0.2,0.2,1),
diffuse (0.8,0.8,0.8,1), specular (0,0,0,1), shininess 0, alpha 1. -/
def mkDefaultMaterial (nm : String) : Material :=
  ⟨(1/5, 1/5, 1/5, 1), (4/5, 4/5, 4/5, 1), (0, 0, 0, 1), 0, 1, nm, "", ""⟩

/-- `Model::Mesh`: `startIndex` into the index buffer, `triangleCount`, and
the material reference (`pMaterial = &m_materials[materialId]` is modelled
by the stable index `materialId`). -/
structure MeshR where
  startIndex : Nat
  triangleCount : Nat
  materialId : Int
  deriving DecidableEq, Repr

/-!
## Index resolution (Pass 2)

`Model::importGeometrySecondPass` resolves every face reference `r` against
the count of elements parsed so far by
`r = (r < 0) ? r + count - 1 : r - 1;`  (lines 2340-2346, 2356-2357,
2371-2381, 2392-2394, 2409-2415, 2425-2426, 2441-2443, 2451 — the same
formula for vertex, texture and normal indices).
-/

/-- The second pass's index-resolution formula, verbatim from the source:
negative `r` becomes `r + count - 1`, positive `r` becomes `r - 1`. -/
def resolveIndex (r : Int) (count : Int) : Int :=
  if r < 0 then r + count - 1 else r - 1

/-!
## Vertex welder (`Model::addVertex`, lines 1890-1928)

`m_vertexCache : std::map<int, std::vector<int>>` maps a source position
index to the vertex-buffer indices already emitted for it; equality of a
candidate against a cached vertex is `memcmp` over the whole `Vertex`.
-/

/-- Lookup in the welder cache (`m_vertexCache.find(hash)`). -/
def cacheFind (vc : List (Int × List Nat)) (h : Int) : Option (List Nat) :=
  (vc.find? (fun p => p.1 == h)).map (fun p => p.2)

/-- `m_vertexCache[hash].push_back(index)`: append `i` to the bucket of key
`h` (creating the bucket if absent, as `operator[]` would). -/
def cacheAppend (vc : List (Int × List Nat)) (h : Int) (i : Nat) : List (Int × List Nat) :=
  match vc with
  | [] => [(h, [i])]
  | p :: rest => if p.1 == h then (p.1, p.2 ++ [i]) :: rest else p :: cacheAppend rest h i

/-- Read of `m_vertexBuffer[index]` during the welder's scan. -/
def vbGet (vb : List Vertex) (i : Nat) : Vertex :=
  vb.getD i Vertex.zero

/-- The welder's linear bucket scan: return the first index whose cached
vertex is `memcmp`-equal to the candidate. -/
def findMatch (vb : List Vertex) (v : Vertex) : List Nat → Option Nat
  | [] => none
  | i :: rest => if vbGet vb i = v then some i else findMatch vb v rest

/-- `Model::addVertex(hash, pVertex)`: returns the vertex-buffer index for
the candidate plus the updated vertex buffer and cache.
  * no bucket: push the candidate, create a one-entry bucket;
  * bucket: linear scan for the first exact match, else push the candidate
    and append its index to the bucket. -/
def addVertex (vb : List Vertex) (vc : List (Int × List Nat)) (h : Int) (v : Vertex) :
    Nat × List Vertex × List (Int × List Nat) :=
  match cacheFind vc h with
  | none => (vb.length, vb ++ [v], (h, [vb.length]) :: vc)
  | some bucket =>
    match findMatch vb v bucket with
    | some i => (i, vb, vc)
    | none => (vb.length, vb ++ [v], cacheAppend vc h vb.length)

/-- The bucket recorded for source index `h` (empty if none). -/
def bucketOf (vc : List (Int × List Nat)) (h : Int) : List Nat :=
  (cacheFind vc h).getD []

/-- Welder invariant maintained by Pass 2: every cached index points into
the vertex buffer. -/
def CacheWF (vb : List Vertex) (vc : List (Int × List Nat)) : Prop :=
  ∀ p ∈ vc, ∀ i ∈ p.2, i < vb.length

instance (vb : List Vertex) (vc : List (Int × List Nat)) : Decidable (CacheWF vb vc) :=
  inferInstanceAs (Decidable (∀ p ∈ vc, ∀ i ∈ p.2, i < vb.length))

/-- Run a sequence of further `addVertex` calls, keeping only the state. -/
def runWelder (s : List Vertex × List (Int × List Nat)) (calls : List (Int × Vertex)) :
    List Vertex × List (Int × List Nat) :=
  calls.foldl (fun s c => (addVertex s.1 s.2 c.1 c.2).2) s

/-! ### Welder lemmas -/

theorem vbGet_append_lt {vb : List Vertex} (e : List Vertex) {j : Nat}
    (hj : j < vb.length) : vbGet (vb ++ e) j = vbGet vb j := by
  unfold vbGet
  exact List.getD_append _ _ _ _ hj

theorem vbGet_snoc_self (vb : List Vertex) (v : Vertex) :
    vbGet (vb ++ [v]) vb.length = v := by
  unfold vbGet
  rw [List.getD_append_right _ _ _ _ (Nat.le_refl _)]
  simp

theorem cacheFind_nil (h : Int) : cacheFind [] h = none := rfl

theorem cacheFind_cons (p : Int × List Nat) (rest : List (Int × List Nat)) (h : Int) :
    cacheFind (p :: rest) h = if p.1 = h then some p.2 else cacheFind rest h := by
  unfold cacheFind
  by_cases hp : p.1 = h
  · rw [List.find?_cons_of_pos _ (by simp [hp])]
    simp [hp]
  · rw [List.find?_cons_of_neg _ (by simp [hp])]
    simp [hp]

theorem cacheAppend_cons (p : Int × List Nat) (rest : List (Int × List Nat))
    (h : Int) (i : Nat) :
    cacheAppend (p :: rest) h i =
      if p.1 = h then (p.1, p.2 ++ [i]) :: rest else p :: cacheAppend rest h i := by
  by_cases hp : p.1 = h
  · simp only [cacheAppend]
    simp [hp]
  · simp only [cacheAppend]
    simp [hp]

theorem findMatch_append_some {vb : List Vertex} {v : Vertex} {b1 : List Nat}
    (b2 : List Nat) {i : Nat} (h : findMatch vb v b1 = some i) :
    findMatch vb v (b1 ++ b2) = some i := by
  induction b1 with
  | nil => simp [findMatch] at h
  | cons j rest ih =>
    by_cases hj : vbGet vb j = v
    · simp [findMatch, hj] at h ⊢; exact h
    · simp [findMatch, hj] at h ⊢; exact ih h

theorem findMatch_append_none {vb : List Vertex} {v : Vertex} {b1 : List Nat}
    (b2 : List Nat) (h : findMatch vb v b1 = none) :
    findMatch vb v (b1 ++ b2) = findMatch vb v b2 := by
  induction b1 with
  | nil => simp
  | cons j rest ih =>
    by_cases hj : vbGet vb j = v
    · simp [findMatch, hj] at h
    · simp [findMatch, hj] at h ⊢; exact ih h

theorem findMatch_congr {vb : List Vertex} (e : List Vertex) (v : Vertex)
    {b : List Nat} (hb : ∀ j ∈ b, j < vb.length) :
    findMatch (vb ++ e) v b = findMatch vb v b := by
  induction b with
  | nil => rfl
  | cons j rest ih =>
    have hj : j < vb.length := hb j (by simp)
    rw [findMatch, findMatch, vbGet_append_lt e hj,
      ih (fun x hx => hb x (by simp [hx]))]

theorem findMatch_eq_none_iff {vb : List Vertex} {v : Vertex} {b : List Nat} :
    findMatch vb v b = none ↔ ∀ i ∈ b, vbGet vb i ≠ v := by
  induction b with
  | nil => simp [findMatch]
  | cons j rest ih =>
    by_cases hj : vbGet vb j = v <;> simp [findMatch, hj, ih]

theorem findMatch_of_first {vb : List Vertex} {v : Vertex} :
    ∀ (b : List Nat) (k : Nat), k < b.length →
      vbGet vb (b.getD k 0) = v →
      (∀ k', k' < k → vbGet vb (b.getD k' 0) ≠ v) →
      findMatch vb v b = some (b.getD k 0)
  | [], k, hk, _, _ => by simp at hk
  | j :: rest, 0, _, hmatch, _ => by
    simp only [List.getD_cons_zero] at hmatch ⊢
    simp [findMatch, hmatch]
  | j :: rest, k + 1, hk, hmatch, hbefore => by
    have hj : vbGet vb j ≠ v := by
      have := hbefore 0 (Nat.succ_pos _)
      simpa using this
    simp only [List.getD_cons_succ] at hmatch ⊢
    rw [findMatch, if_neg hj]
    exact findMatch_of_first rest k (by simpa using hk) hmatch
      (fun k' hk' => by simpa using hbefore (k' + 1) (Nat.succ_lt_succ hk'))

theorem cacheFind_cacheAppend_self {vc : List (Int × List Nat)} {h : Int}
    {b : List Nat} (i : Nat) (hf : cacheFind vc h = some b) :
    cacheFind (cacheAppend vc h i) h = some (b ++ [i]) := by
  induction vc with
  | nil => rw [cacheFind_nil] at hf; exact absurd hf (by simp)
  | cons p rest ih =>
    rw [cacheFind_cons] at hf
    rw [cacheAppend_cons]
    by_cases hp : p.1 = h
    · rw [if_pos hp] at hf
      rw [if_pos hp, cacheFind_cons, if_pos hp]
      simp at hf
      rw [hf]
    · rw [if_neg hp] at hf
      rw [if_neg hp, cacheFind_cons, if_neg hp]
      exact ih hf

theorem cacheFind_cacheAppend_ne {vc : List (Int × List Nat)} {h h' : Int}
    (i : Nat) (hne : h' ≠ h) :
    cacheFind (cacheAppend vc h i) h' = cacheFind vc h' := by
  induction vc with
  | nil =>
    show cacheFind [(h, [i])] h' = cacheFind [] h'
    rw [cacheFind_cons, if_neg (by simpa using Ne.symm hne)]
  | cons p rest ih =>
    rw [cacheAppend_cons]
    by_cases hp : p.1 = h
    · rw [if_pos hp, cacheFind_cons, cacheFind_cons,
        if_neg (by rw [hp]; simpa using Ne.symm hne),
        if_neg (by rw [hp]; simpa using Ne.symm hne)]
    · rw [if_neg hp, cacheFind_cons, cacheFind_cons, ih]

theorem mem_cacheAppend {vc : List (Int × List Nat)} {h : Int} {i : Nat}
    {p : Int × List Nat} (hp : p ∈ cacheAppend vc h i) :
    p ∈ vc ∨ (∃ q ∈ vc, p = (q.1, q.2 ++ [i])) ∨ p = (h, [i]) := by
  induction vc with
  | nil =>
    have : p = (h, [i]) := by simpa [cacheAppend] using hp
    exact Or.inr (Or.inr this)
  | cons q rest ih =>
    rw [cacheAppend_cons] at hp
    by_cases hq : q.1 = h
    · rw [if_pos hq] at hp
      rcases List.mem_cons.1 hp with hp | hp
      · exact Or.inr (Or.inl ⟨q, by simp, hp⟩)
      · exact Or.inl (by simp [hp])
    · rw [if_neg hq] at hp
      rcases List.mem_cons.1 hp with hp | hp
      · exact Or.inl (by simp [hp])
      · rcases ih hp with h1 | ⟨r, hr, hpr⟩ | h1
        · exact Or.inl (by simp [h1])
        · exact Or.inr (Or.inl ⟨r, by simp [hr], hpr⟩)
        · exact Or.inr (Or.inr h1)

theorem cacheFind_mem {vc : List (Int × List Nat)} {h : Int} {b : List Nat}
    (hf : cacheFind vc h = some b) : ∃ p ∈ vc, p.2 = b := by
  unfold cacheFind at hf
  rcases hp : vc.find? (fun p => p.1 == h) with _ | p
  · rw [hp] at hf; simp at hf
  · rw [hp] at hf
    simp at hf
    exact ⟨p, List.mem_of_find?_eq_some hp, hf⟩

theorem bucketOf_wf {vb : List Vertex} {vc : List (Int × List Nat)}
    (hwf : CacheWF vb vc) (h : Int) : ∀ j ∈ bucketOf vc h, j < vb.length := by
  unfold bucketOf
  rcases hf : cacheFind vc h with _ | b
  · simp
  · rcases cacheFind_mem hf with ⟨p, hp, hpb⟩
    intro j hj
    exact hwf p hp j (by simp only [hpb]; simpa using hj)

theorem bucketOf_cons_self (h : Int) (b : List Nat) (vc : List (Int × List Nat)) :
    bucketOf ((h, b) :: vc) h = b := by
  unfold bucketOf
  rw [cacheFind_cons, if_pos rfl]
  rfl

theorem bucketOf_cons_ne {h h' : Int} (hne : h' ≠ h) (b : List Nat)
    (vc : List (Int × List Nat)) : bucketOf ((h, b) :: vc) h' = bucketOf vc h' := by
  unfold bucketOf
  rw [cacheFind_cons, if_neg (by simpa using Ne.symm hne)]

theorem addVertex_extends (vb : List Vertex) (vc : List (Int × List Nat))
    (h : Int) (v : Vertex) :
    (∃ e, (addVertex vb vc h v).2.1 = vb ++ e) ∧
    ∀ h', ∃ e', bucketOf (addVertex vb vc h v).2.2 h' = bucketOf vc h' ++ e' := by
  rcases hf : cacheFind vc h with _ | b
  · simp only [addVertex, hf]
    refine ⟨⟨[v], rfl⟩, fun h' => ?_⟩
    by_cases hh : h' = h
    · subst hh
      refine ⟨[vb.length], ?_⟩
      rw [bucketOf_cons_self]
      simp [bucketOf, hf]
    · exact ⟨[], by rw [bucketOf_cons_ne hh]; simp⟩
  · rcases hm : findMatch vb v b with _ | i
    · simp only [addVertex, hf, hm]
      refine ⟨⟨[v], rfl⟩, fun h' => ?_⟩
      by_cases hh : h' = h
      · subst hh
        refine ⟨[vb.length], ?_⟩
        simp [bucketOf, hf, cacheFind_cacheAppend_self vb.length hf]
      · exact ⟨[], by simp [bucketOf, cacheFind_cacheAppend_ne vb.length hh]⟩
    · simp only [addVertex, hf, hm]
      exact ⟨⟨[], by simp⟩, fun h' => ⟨[], by simp⟩⟩

theorem addVertex_wf {vb : List Vertex} {vc : List (Int × List Nat)}
    (hwf : CacheWF vb vc) (h : Int) (v : Vertex) :
    CacheWF (addVertex vb vc h v).2.1 (addVertex vb vc h v).2.2 := by
  rcases hf : cacheFind vc h with _ | b
  · simp only [addVertex, hf]
    intro p hp i hi
    rcases List.mem_cons.1 hp with hp | hp
    · subst hp
      simp at hi
      simp [hi]
    · have := hwf p hp i hi
      simp
      omega
  · rcases hm : findMatch vb v b with _ | i
    · simp only [addVertex, hf, hm]
      intro p hp i hi
      rcases mem_cacheAppend hp with h1 | ⟨q, hq, hpq⟩ | h1
      · have := hwf p h1 i hi
        simp
        omega
      · subst hpq
        simp at hi
        rcases hi with hi | hi
        · have := hwf q hq i hi
          simp
          omega
        · simp [hi]
      · subst h1
        simp at hi
        simp [hi]
    · simp only [addVertex, hf, hm]
      exact hwf

theorem addVertex_firstMatch {vb : List Vertex} {vc : List (Int × List Nat)}
    (hwf : CacheWF vb vc) (h : Int) (v : Vertex) :
    findMatch (addVertex vb vc h v).2.1 v (bucketOf (addVertex vb vc h v).2.2 h) =
      some (addVertex vb vc h v).1 := by
  rcases hf : cacheFind vc h with _ | b
  · simp only [addVertex, hf]
    rw [bucketOf_cons_self, findMatch, if_pos (vbGet_snoc_self vb v)]
  · rcases hm : findMatch vb v b with _ | i
    · simp only [addVertex, hf, hm]
      have hb : bucketOf (cacheAppend vc h vb.length) h = b ++ [vb.length] := by
        simp [bucketOf, cacheFind_cacheAppend_self vb.length hf]
      have hble : ∀ j ∈ b, j < vb.length := by
        intro j hj
        exact bucketOf_wf hwf h j (by simp [bucketOf, hf, hj])
      rw [hb]
      rw [findMatch_append_none _ (by rw [findMatch_congr [v] v hble]; exact hm)]
      rw [findMatch, if_pos (vbGet_snoc_self vb v)]
    · simp only [addVertex, hf, hm]
      simpa [bucketOf, hf] using hm

theorem firstMatch_step {vb : List Vertex} {vc : List (Int × List Nat)}
    {h : Int} {v : Vertex} {i : Nat}
    (hwf : CacheWF vb vc) (hfm : findMatch vb v (bucketOf vc h) = some i)
    (h2 : Int) (v2 : Vertex) :
    findMatch (addVertex vb vc h2 v2).2.1 v
      (bucketOf (addVertex vb vc h2 v2).2.2 h) = some i := by
  obtain ⟨⟨e, he⟩, hbts⟩ := addVertex_extends vb vc h2 v2
  obtain ⟨e', he'⟩ := hbts h
  rw [he, he']
  have hble := bucketOf_wf hwf h
  rw [findMatch_append_some e' (by rw [findMatch_congr e v hble]; exact hfm)]

theorem firstMatch_runWelder {h : Int} {v : Vertex} {i : Nat} :
    ∀ (calls : List (Int × Vertex)) (vb : List Vertex)
      (vc : List (Int × List Nat)),
      CacheWF vb vc → findMatch vb v (bucketOf vc h) = some i →
      CacheWF (runWelder (vb, vc) calls).1 (runWelder (vb, vc) calls).2 ∧
      findMatch (runWelder (vb, vc) calls).1 v
        (bucketOf (runWelder (vb, vc) calls).2 h) = some i
  | [], vb, vc, hwf, hfm => ⟨hwf, hfm⟩
  | c :: calls, vb, vc, hwf, hfm => by
    have hstep : runWelder (vb, vc) (c :: calls) =
        runWelder ((addVertex vb vc c.1 c.2).2.1, (addVertex vb vc c.1 c.2).2.2) calls := by
      simp [runWelder]
    rw [hstep]
    exact firstMatch_runWelder calls _ _ (addVertex_wf hwf c.1 c.2)
      (firstMatch_step hwf hfm c.1 c.2)

theorem addVertex_of_firstMatch {vb : List Vertex} {vc : List (Int × List Nat)}
    {h : Int} {v : Vertex} {i : Nat}
    (hfm : findMatch vb v (bucketOf vc h) = some i) :
    addVertex vb vc h v = (i, vb, vc) := by
  unfold addVertex
  rcases hf : cacheFind vc h with _ | b
  · simp [bucketOf, hf, findMatch] at hfm
  · simp only [bucketOf, hf, Option.getD_some] at hfm
    simp [hfm]

/-- The welder contract of §4.3, for a welder state `(vb, vc)`:
  1. for any later call sequence, a repeated `addVertex` with the same
     source index and the byte-identical vertex returns the same
     vertex-buffer index;
  2. a candidate differing from every vertex recorded for its source index
     is appended as a new vertex-buffer entry and its index returned;
  3. with several matching entries in a bucket, the first exact match in
     insertion order wins. -/
def AddVertexSpec (vb : List Vertex) (vc : List (Int × List Nat)) : Prop :=
  (∀ (h : Int) (v : Vertex) (calls : List (Int × Vertex)),
    (addVertex (runWelder (addVertex vb vc h v).2 calls).1
      (runWelder (addVertex vb vc h v).2 calls).2 h v).1 = (addVertex vb vc h v).1) ∧
  (∀ (h : Int) (v : Vertex), (∀ i ∈ bucketOf vc h, vbGet vb i ≠ v) →
    (addVertex vb vc h v).1 = vb.length ∧ (addVertex vb vc h v).2.1 = vb ++ [v]) ∧
  (∀ (h : Int) (v : Vertex) (k : Nat), k < (bucketOf vc h).length →
    vbGet vb ((bucketOf vc h).getD k 0) = v →
    (∀ k', k' < k → vbGet vb ((bucketOf vc h).getD k' 0) ≠ v) →
    addVertex vb vc h v = ((bucketOf vc h).getD k 0, vb, vc))

/-- C3: for every call sequence to `Model::addVertex` (the Pass-2 vertex
welder): a repeated call with the same source position index and a
byte-identical attribute record returns the same vertex-buffer index
(through any interleaved calls); a candidate differing from every vertex
recorded for its source index is appended as a new distinct entry and its
index returned; and with several entries in a bucket the first exact match
in insertion order is returned. -/
theorem claim_C3_vertex_welder (vb : List Vertex) (vc : List (Int × List Nat))
    (hwf : CacheWF vb vc) : AddVertexSpec vb vc := by
  refine ⟨?_, ?_, ?_⟩
  · intro h v calls
    have h1 := addVertex_firstMatch hwf h v
    have h2 := addVertex_wf hwf h v
    obtain ⟨hwf', hfm'⟩ :=
      firstMatch_runWelder calls (addVertex vb vc h v).2.1 (addVertex vb vc h v).2.2 h2 h1
    rw [addVertex_of_firstMatch hfm']
  · intro h v hdiff
    rcases hf : cacheFind vc h with _ | b
    · simp [addVertex, hf]
    · have hm : findMatch vb v b = none :=
        findMatch_eq_none_iff.2 (fun i hi => hdiff i (by simp [bucketOf, hf, hi]))
      simp [addVertex, hf, hm]
  · intro h v k hk hmatch hbefore
    exact addVertex_of_firstMatch (findMatch_of_first _ k hk hmatch hbefore)

/-- Witness for C3 at a concrete welder state. -/
theorem claim_C3_vertex_welder_witness :
    CacheWF [Vertex.zero] [((0 : Int), [0])] ∧
    AddVertexSpec [Vertex.zero] [((0 : Int), [0])] :=
  ⟨by decide, claim_C3_vertex_welder _ _ (by decide)⟩

/-!
## Material library loader (`Model::importMaterials`, lines 2506-2665)

The function makes two passes over the `.mtl` token stream: the first
counts `newmtl` tokens and resizes `m_materials` (value-initializing new
slots), the second fills the current material `pMaterial` according to the
first characters of each directive token.  Directives are modelled by the
outcome of that character dispatch.
-/

/-- A directive of the material file, one constructor per branch of the
`importMaterials` dispatch switch: `newmtl`, `Ns` (any token starting with
`N`), `Ka`/`Kd`/`Ks`, `Tr`, `d`, `illum`, `map_Kd`, `map_bump`, and the
skipped remainder. -/
inductive MtlTok where
  | newmtl (nm : String)
  | ns (v : ℚ)
  | ka (r g b : ℚ)
  | kd (r g b : ℚ)
  | ks (r g b : ℚ)
  | tr (v : ℚ)
  | dd (v : ℚ)
  | illum (n : Int)
  | mapKd (s : String)
  | mapBump (s : String)
  | other
  deriving DecidableEq, Repr

/-- `std::vector::resize(n)`: keep the first `n` elements, value-initialize
any new slots with `z`. -/
def resizeList {α : Type} (l : List α) (n : Nat) (z : α) : List α :=
  l.take n ++ List.replicate (n - l.length) z

/-- In-place update of element `i` (a write through a pointer/index into a
`std::vector`); out-of-range writes do not occur in the modelled runs. -/
def modifyAt {α : Type} (l : List α) (i : Nat) (f : α → α) (z : α) : List α :=
  l.set i (f (l.getD i z))

/-- Lookup in `m_materialCache : std::map<std::string, int>`. -/
def strLookup (cache : List (String × Nat)) (k : String) : Option Nat :=
  (cache.find? (fun p => p.1 == k)).map (fun p => p.2)

/-- `m_materialCache[k] = v` (insert-or-assign of `std::map::operator[]`). -/
def strInsert (cache : List (String × Nat)) (k : String) (v : Nat) : List (String × Nat) :=
  if cache.any (fun p => p.1 == k) then
    cache.map (fun p => if p.1 == k then (p.1, v) else p)
  else (k, v) :: cache

/-- State of the fill loop of `importMaterials`: the material table, the
name cache, the current material (`pMaterial`, an index) and the running
`numMaterials` counter. -/
structure MtlFillState where
  mats : List Material
  cache : List (String × Nat)
  cur : Option Nat
  count : Nat

/-- Apply `f` through `pMaterial`.  Before any `newmtl`, the C code would
dereference a null `pMaterial` (undefined behavior); such directives are
modelled as no-ops and never exercised by the theorems below. -/
def mtlWithCur (st : MtlFillState) (f : Material → Material) : MtlFillState :=
  match st.cur with
  | none => st
  | some i => { st with mats := modifyAt st.mats i f Material.zero }

/-- One directive of the second (fill) loop of `importMaterials`:
`newmtl` re-initializes slot `numMaterials` with the defaults and records
the name; `Ns v` stores `v / 1000` as shininess; `Ka/Kd/Ks` store the color
with alpha forced to 1; `Tr v` stores `alpha = 1 - v`; `d v` stores
`alpha = v`; `illum 1` zeroes the specular color; `map_Kd`/`map_bump`
store the path strings. -/
def mtlStep (st : MtlFillState) (t : MtlTok) : MtlFillState :=
  match t with
  | .newmtl nm =>
    { st with
      mats := modifyAt st.mats st.count (fun _ => mkDefaultMaterial nm) Material.zero,
      cache := strInsert st.cache nm st.count,
      cur := some st.count,
      count := st.count + 1 }
  | .ns v => mtlWithCur st (fun m => { m with shininess := v / 1000 })
  | .ka r g b => mtlWithCur st (fun m => { m with ambient := (r, g, b, 1) })
  | .kd r g b => mtlWithCur st (fun m => { m with diffuse := (r, g, b, 1) })
  | .ks r g b => mtlWithCur st (fun m => { m with specular := (r, g, b, 1) })
  | .tr v => mtlWithCur st (fun m => { m with alpha := 1 - v })
  | .dd v => mtlWithCur st (fun m => { m with alpha := v })
  | .illum n =>
    if n = 1 then mtlWithCur st (fun m => { m with specular := (0, 0, 0, 1) }) else st
  | .mapKd s => mtlWithCur st (fun m => { m with colorMapFilename := s })
  | .mapBump s => mtlWithCur st (fun m => { m with bumpMapFilename := s })
  | .other => st

/-- Does a token start a new material (`buffer[0] == 'n'` in loop 1)? -/
def isNewmtl : MtlTok → Bool
  | .newmtl _ => true
  | _ => false

/-- `Model::importMaterials` after a successful `fopen`: count `newmtl`
tokens, resize the table, run the fill loop.  Returns
`(m_numberOfMaterials, m_materials, m_materialCache)`. -/
def importMaterialsCore (toks : List MtlTok) (oldMats : List Material)
    (oldCache : List (String × Nat)) : Nat × List Material × List (String × Nat) :=
  let n := toks.countP isNewmtl
  let st := toks.foldl mtlStep ⟨resizeList oldMats n Material.zero, oldCache, none, 0⟩
  (n, st.mats, st.cache)

/-- C7: `Ns v` stores `shininess = v / 1000`, `d v` stores `alpha = v`,
`Tr v` stores `alpha = 1 - v`; in particular a material with `Tr 0.3` and
a material with `d 0.7` both end with stored alpha `0.7`. -/
theorem claim_C7_material_alpha_conventions :
    (∀ (nm : String) (v : ℚ),
      ((importMaterialsCore [MtlTok.newmtl nm, MtlTok.ns v] [] []).2.1.getD 0
          Material.zero).shininess = v / 1000 ∧
      ((importMaterialsCore [MtlTok.newmtl nm, MtlTok.dd v] [] []).2.1.getD 0
          Material.zero).alpha = v ∧
      ((importMaterialsCore [MtlTok.newmtl nm, MtlTok.tr v] [] []).2.1.getD 0
          Material.zero).alpha = 1 - v) ∧
    ((importMaterialsCore [MtlTok.newmtl "a", MtlTok.tr (3/10)] [] []).2.1.getD 0
        Material.zero).alpha = 7/10 ∧
    ((importMaterialsCore [MtlTok.newmtl "b", MtlTok.dd (7/10)] [] []).2.1.getD 0
        Material.zero).alpha = 7/10 := by
  refine ⟨fun nm v => ⟨rfl, rfl, rfl⟩, ?_, by rfl⟩
  show (1 : ℚ) - 3/10 = 7/10
  norm_num

/-!
## The `Model` state and the geometry parser

`Model`'s member variables (model_obj.h lines 102-132).  `float` members
are `ℚ`, the `std::vector`s are `List`s, the two `std::map`s association
lists.  `m_meshes` stores material references as indices (`MeshR`).
-/

structure Model where
  hasPositions : Bool
  hasTextureCoords : Bool
  hasNormals : Bool
  hasTangents : Bool
  numberOfVertexCoords : Nat
  numberOfTextureCoords : Nat
  numberOfNormals : Nat
  numberOfTriangles : Nat
  numberOfMaterials : Nat
  numberOfMeshes : Nat
  center : ℚ × ℚ × ℚ
  width : ℚ
  height : ℚ
  length : ℚ
  radius : ℚ
  directoryPath : String
  meshes : List MeshR
  materials : List Material
  vertexBuffer : List Vertex
  indexBuffer : List Nat
  attributeBuffer : List Int
  vertexCoords : List ℚ
  textureCoords : List ℚ
  normals : List ℚ
  materialCache : List (String × Nat)
  vertexCache : List (Int × List Nat)
  deriving DecidableEq, Repr

/-- The state `Model::Model()` (and `destroy()`) establishes. -/
def emptyModel : Model :=
  { hasPositions := false, hasTextureCoords := false, hasNormals := false,
    hasTangents := false, numberOfVertexCoords := 0, numberOfTextureCoords := 0,
    numberOfNormals := 0, numberOfTriangles := 0, numberOfMaterials := 0,
    numberOfMeshes := 0, center := (0, 0, 0), width := 0, height := 0,
    length := 0, radius := 0, directoryPath := "", meshes := [], materials := [],
    vertexBuffer := [], indexBuffer := [], attributeBuffer := [],
    vertexCoords := [], textureCoords := [], normals := [], materialCache := [],
    vertexCache := [] }

/-- The index-record form of a face, fixed by the first face token
(`v`, `v/vt`, `v//vn` or `v/vt/vn`). -/
inductive FaceFormat where
  | posOnly
  | posTex
  | posNorm
  | posTexNorm
  deriving DecidableEq, Repr

def FaceFormat.hasTex : FaceFormat → Bool
  | .posTex => true
  | .posTexNorm => true
  | _ => false

def FaceFormat.hasNorm : FaceFormat → Bool
  | .posNorm => true
  | .posTexNorm => true
  | _ => false

/-- One face corner as read from the file: raw (1-based or negative)
vertex/texcoord/normal references; components absent from the face format
are unused. -/
structure RawRef where
  v : Int
  vt : Int
  vn : Int
  deriving DecidableEq, Repr

/-- One line of the geometry file, after tokenization: the directives the
two passes dispatch on (`v`, `vn`, `vt`, `f`, `mtllib`, `usemtl`), plus
the skipped remainder (`other`). -/
inductive ObjLine where
  | v (x y z : ℚ)
  | vn (x y z : ℚ)
  | vt (u w : ℚ)
  | f (fmt : FaceFormat) (refs : List RawRef)
  | mtllib (path : String)
  | usemtl (nm : String)
  | other
  deriving DecidableEq, Repr

/-!
### Pass 1 (`Model::importGeometryFirstPass`, lines 2182-2307)
-/

/-- Triangles contributed by one `f` line in Pass 1: the first three
references produce one triangle, every further reference one more
(fan triangulation: `k` corners give `k - 2` triangles). -/
def countFaceTris (refs : List RawRef) : Nat :=
  match refs with
  | _ :: _ :: _ :: rest => 1 + rest.length
  | _ => 1

/-- The member resets at the top of `importGeometryFirstPass`. -/
def pass1Start (m : Model) : Model :=
  { m with
    hasTextureCoords := false, hasNormals := false,
    numberOfVertexCoords := 0, numberOfTextureCoords := 0,
    numberOfNormals := 0, numberOfTriangles := 0 }

/-- `Model::importMaterials` including the `fopen`: `mtlFs` maps a material
file name to its token stream, `none` meaning the file cannot be opened
(then the function returns `false` having touched nothing). -/
def importMaterialsM (mtlFs : String → Option (List MtlTok)) (path : String)
    (m : Model) : Bool × Model :=
  match mtlFs path with
  | none => (false, m)
  | some toks =>
    let r := importMaterialsCore toks m.materials m.materialCache
    (true, { m with numberOfMaterials := r.1, materials := r.2.1,
                    materialCache := r.2.2 })

/-- One token dispatch of the Pass-1 loop.  Note that the `Bool` result of
`importMaterials` is discarded (line 2249). -/
def pass1Step (mtlFs : String → Option (List MtlTok)) (m : Model) (l : ObjLine) : Model :=
  match l with
  | .f _ refs => { m with numberOfTriangles := m.numberOfTriangles + countFaceTris refs }
  | .mtllib path => (importMaterialsM mtlFs (m.directoryPath ++ path) m).2
  | .v _ _ _ => { m with numberOfVertexCoords := m.numberOfVertexCoords + 1 }
  | .vn _ _ _ => { m with numberOfNormals := m.numberOfNormals + 1 }
  | .vt _ _ => { m with numberOfTextureCoords := m.numberOfTextureCoords + 1 }
  | .usemtl _ => m
  | .other => m

/-- After the Pass-1 loop: set the `has*` flags, resize all buffers to
their exact final sizes, and synthesize the "default" material if no
material was declared (`m_numberOfMaterials == 0`; note the push does not
update `m_numberOfMaterials`). -/
def pass1Finish (m : Model) : Model :=
  let m1 := { m with
    hasPositions := 0 < m.numberOfVertexCoords,
    hasNormals := 0 < m.numberOfNormals,
    hasTextureCoords := 0 < m.numberOfTextureCoords,
    vertexCoords := resizeList m.vertexCoords (m.numberOfVertexCoords * 3) 0,
    textureCoords := resizeList m.textureCoords (m.numberOfTextureCoords * 2) 0,
    normals := resizeList m.normals (m.numberOfNormals * 3) 0,
    indexBuffer := resizeList m.indexBuffer (m.numberOfTriangles * 3) 0,
    attributeBuffer := resizeList m.attributeBuffer m.numberOfTriangles 0 }
  if m1.numberOfMaterials = 0 then
    { m1 with materials := m1.materials ++ [mkDefaultMaterial "default"],
              materialCache := strInsert m1.materialCache "default" 0 }
  else m1

def pass1 (mtlFs : String → Option (List MtlTok)) (lines : List ObjLine)
    (m : Model) : Model :=
  pass1Finish (lines.foldl (pass1Step mtlFs) (pass1Start m))

/-!
### Pass 2 (`Model::importGeometrySecondPass`, lines 2309-2504)
-/

/-- The local counters of `importGeometrySecondPass` together with the
member buffers it touches. -/
structure P2State where
  numVertices : Nat
  numTexCoords : Nat
  numNormals : Nat
  numTriangles : Nat
  activeMaterial : Nat
  vertexCoords : List ℚ
  textureCoords : List ℚ
  normals : List ℚ
  vertexBuffer : List Vertex
  vertexCache : List (Int × List Nat)
  indexBuffer : List Nat
  attributeBuffer : List Int
  materialCache : List (String × Nat)
  deriving Repr

/-- Read `l[i]` for an `int` index computed by index resolution (an
out-of-range or negative read is undefined behavior in C; it yields `0`
here and is not exercised by valid inputs). -/
def getQ (l : List ℚ) (i : Int) : ℚ :=
  if 0 ≤ i then l.getD i.toNat 0 else 0

/-- Resolve one raw corner against the counts of elements parsed so far
(the `(x < 0) ? x + count - 1 : x - 1` triple of the source). -/
def resolveRef (st : P2State) (r : RawRef) : Int × Int × Int :=
  (resolveIndex r.v st.numVertices, resolveIndex r.vt st.numTexCoords,
   resolveIndex r.vn st.numNormals)

/-- Build the candidate `Vertex` of `addTrianglePos*`: position always,
texcoord/normal according to the face format, everything else zero. -/
def mkVertexP2 (st : P2State) (fmt : FaceFormat) (r : Int × Int × Int) : Vertex :=
  { Vertex.zero with
    px := getQ st.vertexCoords (3 * r.1),
    py := getQ st.vertexCoords (3 * r.1 + 1),
    pz := getQ st.vertexCoords (3 * r.1 + 2),
    tu := if fmt.hasTex then getQ st.textureCoords (2 * r.2.1) else 0,
    tv := if fmt.hasTex then getQ st.textureCoords (2 * r.2.1 + 1) else 0,
    nx := if fmt.hasNorm then getQ st.normals (3 * r.2.2) else 0,
    ny := if fmt.hasNorm then getQ st.normals (3 * r.2.2 + 1) else 0,
    nz := if fmt.hasNorm then getQ st.normals (3 * r.2.2 + 2) else 0 }

/-- `Model::addTrianglePos*` (lines 1745-1888), one triangle: store the
active material in the attribute buffer at `index`, weld the three corner
vertices, store their indices at `index*3 ..`. -/
def addTriangleP2 (fmt : FaceFormat) (r0 r1 r2 : Int × Int × Int) (st : P2State) : P2State :=
  let idx := st.numTriangles
  let st1 := { st with attributeBuffer := st.attributeBuffer.set idx (st.activeMaterial : Int) }
  let a0 := addVertex st1.vertexBuffer st1.vertexCache r0.1 (mkVertexP2 st1 fmt r0)
  let st2 := { st1 with vertexBuffer := a0.2.1, vertexCache := a0.2.2,
                        indexBuffer := st1.indexBuffer.set (idx * 3) a0.1 }
  let a1 := addVertex st2.vertexBuffer st2.vertexCache r1.1 (mkVertexP2 st2 fmt r1)
  let st3 := { st2 with vertexBuffer := a1.2.1, vertexCache := a1.2.2,
                        indexBuffer := st2.indexBuffer.set (idx * 3 + 1) a1.1 }
  let a2 := addVertex st3.vertexBuffer st3.vertexCache r2.1 (mkVertexP2 st3 fmt r2)
  { st3 with vertexBuffer := a2.2.1, vertexCache := a2.2.2,
             indexBuffer := st3.indexBuffer.set (idx * 3 + 2) a2.1,
             numTriangles := idx + 1 }

/-- The fan loop of the `f` case: each further reference `r` is resolved
and yields the triangle `(r0, r1, r)`; then the trailing pair advances. -/
def fanLoop (fmt : FaceFormat) (r0 r1 : Int × Int × Int) (rest : List RawRef)
    (st : P2State) : P2State :=
  match rest with
  | [] => st
  | r :: rs =>
    let r2 := resolveRef st r
    fanLoop fmt r0 r2 rs (addTriangleP2 fmt r0 r1 r2 st)

/-- The whole `f` case of Pass 2: resolve the first three corners, emit the
first triangle, run the fan loop.  A face with fewer than three corners has
no defined behavior in the source (its `fscanf` calls misfire); it is
modelled as a no-op and excluded by the validity hypothesis of C4. -/
def p2Face (fmt : FaceFormat) (refs : List RawRef) (st : P2State) : P2State :=
  match refs with
  | ra :: rb :: rc :: rest =>
    let r0 := resolveRef st ra
    let r1 := resolveRef st rb
    let r2 := resolveRef st rc
    fanLoop fmt r0 r2 rest (addTriangleP2 fmt r0 r1 r2 st)
  | _ => st

/-- One token dispatch of the Pass-2 loop.  `v`/`vn`/`vt` write the parsed
floats into the scratch arrays at the positions given by the local
counters; `usemtl` switches the active material (unknown names fall back
to 0); `mtllib` hits the default case and is skipped. -/
def p2Step (st : P2State) (l : ObjLine) : P2State :=
  match l with
  | .v x y z =>
    { st with
      vertexCoords := ((st.vertexCoords.set (3 * st.numVertices) x).set
        (3 * st.numVertices + 1) y).set (3 * st.numVertices + 2) z,
      numVertices := st.numVertices + 1 }
  | .vn x y z =>
    { st with
      normals := ((st.normals.set (3 * st.numNormals) x).set
        (3 * st.numNormals + 1) y).set (3 * st.numNormals + 2) z,
      numNormals := st.numNormals + 1 }
  | .vt u w =>
    { st with
      textureCoords := (st.textureCoords.set (2 * st.numTexCoords) u).set
        (2 * st.numTexCoords + 1) w,
      numTexCoords := st.numTexCoords + 1 }
  | .f fmt refs => p2Face fmt refs st
  | .usemtl nm => { st with activeMaterial := (strLookup st.materialCache nm).getD 0 }
  | .mtllib _ => st
  | .other => st

def p2Init (m : Model) : P2State :=
  { numVertices := 0, numTexCoords := 0, numNormals := 0, numTriangles := 0,
    activeMaterial := 0, vertexCoords := m.vertexCoords,
    textureCoords := m.textureCoords, normals := m.normals,
    vertexBuffer := m.vertexBuffer, vertexCache := m.vertexCache,
    indexBuffer := m.indexBuffer, attributeBuffer := m.attributeBuffer,
    materialCache := m.materialCache }

def pass2Run (lines : List ObjLine) (m : Model) : P2State :=
  lines.foldl p2Step (p2Init m)

def p2Write (m : Model) (st : P2State) : Model :=
  { m with
    vertexCoords := st.vertexCoords, textureCoords := st.textureCoords,
    normals := st.normals, vertexBuffer := st.vertexBuffer,
    vertexCache := st.vertexCache, indexBuffer := st.indexBuffer,
    attributeBuffer := st.attributeBuffer }

def pass2 (lines : List ObjLine) (m : Model) : Model :=
  p2Write m (pass2Run lines m)

/-!
## Mesh builder (`Model::buildMeshes`, lines 1930-1967)

The C code scans `m_attributeBuffer` twice: the first loop counts the
positions where the material id differs from its predecessor (sentinel
`-1`), the second creates one `Mesh` per such position
(`startIndex = i * 3`, `pMaterial = &m_materials[id]`) and bumps
`triangleCount` for every further triangle of the run.  The net effect —
one `Mesh` per maximal contiguous run, carrying the run's length — is
modelled by a run-length encoding; `std::sort` with `MeshCompFunc`
(`lhs.pMaterial->alpha > rhs.pMaterial->alpha`, lines 1499-1502) is
modelled by an insertion sort on the same comparator: the theorems proved
below (a permutation of the runs, pairwise non-increasing alpha) hold for
every conforming `std::sort` implementation.
-/

/-- Maximal contiguous runs `(materialId, length)` of the attribute
buffer, in buffer order. -/
def runsR : List Int → List (Int × Nat)
  | [] => []
  | a :: rest =>
    match runsR rest with
    | [] => [(a, 1)]
    | (b, k) :: rs => if a = b then (a, k + 1) :: rs else (a, 1) :: (b, k) :: rs

/-- Attach `startIndex = runStartTriangle * 3` to each run, `i` being the
triangle position of the first run. -/
def withStarts : Nat → List (Int × Nat) → List MeshR
  | _, [] => []
  | i, (a, k) :: rs => ⟨3 * i, k, a⟩ :: withStarts (i + k) rs

/-- The mesh list `buildMeshes` constructs before sorting. -/
def buildRuns (attr : List Int) : List MeshR :=
  withStarts 0 (runsR attr)

/-- The sort key of `MeshCompFunc`: the referenced material's alpha. -/
def meshKey (mats : List Material) (m : MeshR) : ℚ :=
  (mats.getD m.materialId.toNat Material.zero).alpha

def insertDesc (key : MeshR → ℚ) (m : MeshR) : List MeshR → List MeshR
  | [] => [m]
  | x :: xs => if key x < key m then m :: x :: xs else x :: insertDesc key m xs

/-- Sort by strictly-greater key (the `MeshCompFunc` order): the result is
pairwise non-increasing in the key. -/
def sortDesc (key : MeshR → ℚ) : List MeshR → List MeshR
  | [] => []
  | x :: xs => insertDesc key x (sortDesc key xs)

/-- `Model::buildMeshes`: runs of the attribute buffer, sorted by
descending material alpha. -/
def buildMeshesCore (mats : List Material) (attr : List Int) : List MeshR :=
  sortDesc (meshKey mats) (buildRuns attr)

def buildMeshesM (m : Model) : Model :=
  { m with
    numberOfMeshes := (buildRuns m.attributeBuffer).length,
    meshes := buildMeshesCore m.materials m.attributeBuffer }

/-!
## Bounds (`Model::bounds`, lines 1528-1579)

The accumulators start from `std::numeric_limits<float>::min()` — the
smallest positive normal `float`, `2^-126`, not the most negative float —
and `std::numeric_limits<float>::max()`.  The scan itself performs only
comparisons and copies, which the rational embedding tracks exactly.
-/

/-- `std::numeric_limits<float>::min()` = 2⁻¹²⁶. -/
def fltMin : ℚ := 1 / 2 ^ 126

/-- `std::numeric_limits<float>::max()` = (2²⁴ − 1) · 2¹⁰⁴. -/
def fltMax : ℚ := (2 ^ 24 - 1) * 2 ^ 104

structure BoundsAcc where
  xMin : ℚ
  xMax : ℚ
  yMin : ℚ
  yMax : ℚ
  zMin : ℚ
  zMax : ℚ
  deriving DecidableEq, Repr

structure BoundsRes where
  center : ℚ × ℚ × ℚ
  width : ℚ
  height : ℚ
  length : ℚ
  radius : ℚ
  deriving DecidableEq, Repr

/-- The per-vertex update of the bounds loop: the six `if`s of the source
(`if (x < xMin) xMin = x; if (x > xMax) xMax = x; ...`) each read and write
one distinct accumulator, so the sequential updates are the simultaneous
ones. -/
def boundsStep (a : BoundsAcc) (v : Vertex) : BoundsAcc :=
  { xMin := if v.px < a.xMin then v.px else a.xMin,
    xMax := if a.xMax < v.px then v.px else a.xMax,
    yMin := if v.py < a.yMin then v.py else a.yMin,
    yMax := if a.yMax < v.py then v.py else a.yMax,
    zMin := if v.pz < a.zMin then v.pz else a.zMin,
    zMax := if a.zMax < v.pz then v.pz else a.zMax }

/-- `Model::bounds`: fold the scan over the vertex buffer, then
`center = (min + max) / 2` per axis, extents `max - min`, and
`radius = max(max(width, height), length)`. -/
def boundsCore (vs : List Vertex) : BoundsRes :=
  let a := vs.foldl boundsStep ⟨fltMax, fltMin, fltMax, fltMin, fltMax, fltMin⟩
  { center := ((a.xMin + a.xMax) / 2, (a.yMin + a.yMax) / 2, (a.zMin + a.zMax) / 2),
    width := a.xMax - a.xMin,
    height := a.yMax - a.yMin,
    length := a.zMax - a.zMin,
    radius := max (max (a.xMax - a.xMin) (a.yMax - a.yMin)) (a.zMax - a.zMin) }

/-- `bounds(m_center, m_width, m_height, m_length, m_radius)` as called
from `import`. -/
def setBounds (m : Model) : Model :=
  let b := boundsCore m.vertexBuffer
  { m with
    center := b.center, width := b.width, height := b.height,
    length := b.length, radius := b.radius }

/-!
## `Model::import` (lines 1614-1666)
-/

/-- Index of the last occurrence of `c` in `cs` (`find_last_of`). -/
def lastIdxOf (cs : List Char) (c : Char) : Option Nat :=
  (cs.reverse.findIdx? (fun x => x == c)).map (fun j => cs.length - 1 - j)

/-- The directory-prefix extraction of `import`: everything up to and
including the last `'\\'` (checked first) or `'/'`, else the empty
string. -/
def dirOf (s : String) : String :=
  let cs := s.toList
  match lastIdxOf cs '\\' with
  | some i => String.mk (cs.take (i + 1))
  | none =>
    match lastIdxOf cs '/' with
    | some i => String.mk (cs.take (i + 1))
    | none => ""

/-- `Model::import(pszFilename)`.  `fs` maps the primary file name to its
token-line stream (`none`: `fopen` fails and the function returns `false`
without touching any member).  On success it runs both passes, builds the
meshes and the bounds, and returns `true`.  The conditional
`generateNormals`/`generateTangents` stages that follow in the source
mutate only the floating-point normal/tangent/bitangent vertex fields and
cannot change the returned `bool`; they are outside this embedding. -/
def importModel (fs : String → Option (List ObjLine))
    (mtlFs : String → Option (List MtlTok)) (filename : String) (m : Model) :
    Bool × Model :=
  match fs filename with
  | none => (false, m)
  | some lines =>
    let m1 := { m with directoryPath := dirOf filename }
    let m2 := pass2 lines (pass1 mtlFs lines m1)
    (true, setBounds (buildMeshesM m2))

/-!
## Claims C1, C2, C4
-/

/-- A "material file system" with no openable file. -/
def mtlFsNone : String → Option (List MtlTok) := fun _ => none

/-- A "geometry file system" with no openable file. -/
def fsNone : String → Option (List ObjLine) := fun _ => none

/-- Scenario input for C1: ten `v` lines (position `(i, 0, 0)` for the
`i`-th), then `f -1 -2 -3`. -/
def c1Lines : List ObjLine :=
  [ObjLine.v 0 0 0, ObjLine.v 1 0 0, ObjLine.v 2 0 0, ObjLine.v 3 0 0,
   ObjLine.v 4 0 0, ObjLine.v 5 0 0, ObjLine.v 6 0 0, ObjLine.v 7 0 0,
   ObjLine.v 8 0 0, ObjLine.v 9 0 0,
   ObjLine.f FaceFormat.posOnly [⟨-1, 0, 0⟩, ⟨-2, 0, 0⟩, ⟨-3, 0, 0⟩]]

/-- C1: the spec says a negative reference resolves as
`resolved = count_so_far + reference` (so after 10 vertices `f -1 -2 -3`
gives 9, 8, 7).  The code computes `reference + count - 1` instead: the
three corners resolve to 8, 7, 6, and the emitted vertex buffer holds the
positions of source indices 8, 7, 6 (x-coordinates 8, 7, 6), not 9, 8, 7.
(For `-count` the code even produces `-1`, an out-of-bounds scratch-array
read.) -/
theorem claim_C1_negative_index_resolution :
    resolveIndex (-1) 10 = 8 ∧ resolveIndex (-2) 10 = 7 ∧ resolveIndex (-3) 10 = 6 ∧
    ¬(resolveIndex (-1) 10 = 10 + (-1) ∧ resolveIndex (-2) 10 = 10 + (-2) ∧
      resolveIndex (-3) 10 = 10 + (-3)) ∧
    resolveIndex (-10) 10 = -1 ∧
    (pass2Run c1Lines (pass1 mtlFsNone c1Lines emptyModel)).vertexBuffer.map
      (fun v => v.px) = [8, 7, 6] ∧
    ¬((pass2Run c1Lines (pass1 mtlFsNone c1Lines emptyModel)).vertexBuffer.map
      (fun v => v.px) = [9, 8, 7]) ∧
    (pass2Run c1Lines (pass1 mtlFsNone c1Lines emptyModel)).indexBuffer = [0, 1, 2] := by
  decide

/-- Scenario input for C2: the primary file references a material library
that cannot be opened, then defines a triangle. -/
def c2Lines : List ObjLine :=
  [ObjLine.mtllib "missing.mtl", ObjLine.v 0 0 0, ObjLine.v 1 0 0, ObjLine.v 0 1 0,
   ObjLine.f FaceFormat.posOnly [⟨1, 0, 0⟩, ⟨2, 0, 0⟩, ⟨3, 0, 0⟩]]

def fsC2 : String → Option (List ObjLine) :=
  fun s => if s = "tri.obj" then some c2Lines else none

/-- C2 counterexample: the claim says `import` returns `false` when a
referenced material library cannot be opened.  Here the primary file opens,
its `mtllib` names a file the material file system cannot open
(`importMaterials` returns `false`, which line 2249 discards) — and
`import` returns `true`. -/
theorem claim_C2_counterexample :
    mtlFsNone "missing.mtl" = none ∧
    (importModel fsC2 mtlFsNone "tri.obj" emptyModel).1 = true :=
  ⟨rfl, rfl⟩

/-- C2 (amended): `import` returns `false` exactly when the primary
geometry file cannot be opened, and in that case no Model state is
modified; a material library that cannot be opened only makes
`importMaterials` return `false`, which the first pass ignores. -/
theorem claim_C2_amended (fs : String → Option (List ObjLine))
    (mtlFs : String → Option (List MtlTok)) (filename : String) (m : Model) :
    ((importModel fs mtlFs filename m).1 = false ↔ fs filename = none) ∧
    (fs filename = none → (importModel fs mtlFs filename m).2 = m) := by
  rcases h : fs filename with _ | lines
  · simp [importModel, h]
  · simp [importModel, h]

/-- Witness for C2 (amended) at a concrete input. -/
theorem claim_C2_amended_witness :
    ((importModel fsNone mtlFsNone "a.obj" emptyModel).1 = false ↔
      fsNone "a.obj" = none) ∧
    (fsNone "a.obj" = none →
      (importModel fsNone mtlFsNone "a.obj" emptyModel).2 = emptyModel) :=
  claim_C2_amended fsNone mtlFsNone "a.obj" emptyModel

/-- Triangles a line contributes to the Pass-1 count. -/
def lineTris : ObjLine → Nat
  | .f _ refs => countFaceTris refs
  | _ => 0

/-- A face line is well formed when it has at least three corners (§6:
`f ref ref ref...` — ≥ 3 corners). -/
def faceOk : ObjLine → Bool
  | .f _ refs => decide (3 ≤ refs.length)
  | _ => true

/-- A valid input file: every face has at least three corners. -/
def ValidFaces (lines : List ObjLine) : Prop :=
  ∀ l ∈ lines, faceOk l = true

instance (lines : List ObjLine) : Decidable (ValidFaces lines) :=
  inferInstanceAs (Decidable (∀ l ∈ lines, faceOk l = true))

theorem addTriangleP2_counts (fmt : FaceFormat) (r0 r1 r2 : Int × Int × Int)
    (st : P2State) :
    (addTriangleP2 fmt r0 r1 r2 st).numTriangles = st.numTriangles + 1 ∧
    (addTriangleP2 fmt r0 r1 r2 st).indexBuffer.length = st.indexBuffer.length ∧
    (addTriangleP2 fmt r0 r1 r2 st).attributeBuffer.length = st.attributeBuffer.length := by
  simp [addTriangleP2, List.length_set]

theorem fanLoop_counts (fmt : FaceFormat) :
    ∀ (rest : List RawRef) (r0 r1 : Int × Int × Int) (st : P2State),
    (fanLoop fmt r0 r1 rest st).numTriangles = st.numTriangles + rest.length ∧
    (fanLoop fmt r0 r1 rest st).indexBuffer.length = st.indexBuffer.length ∧
    (fanLoop fmt r0 r1 rest st).attributeBuffer.length = st.attributeBuffer.length
  | [], r0, r1, st => by simp [fanLoop]
  | r :: rs, r0, r1, st => by
    obtain ⟨h1, h2, h3⟩ := fanLoop_counts fmt rs r0 (resolveRef st r)
      (addTriangleP2 fmt r0 r1 (resolveRef st r) st)
    obtain ⟨g1, g2, g3⟩ := addTriangleP2_counts fmt r0 r1 (resolveRef st r) st
    refine ⟨?_, ?_, ?_⟩
    · rw [fanLoop, h1, g1]
      simp
      omega
    · rw [fanLoop, h2, g2]
    · rw [fanLoop, h3, g3]

theorem p2Face_counts (fmt : FaceFormat) (refs : List RawRef) (st : P2State)
    (h : 3 ≤ refs.length) :
    (p2Face fmt refs st).numTriangles = st.numTriangles + countFaceTris refs ∧
    (p2Face fmt refs st).indexBuffer.length = st.indexBuffer.length ∧
    (p2Face fmt refs st).attributeBuffer.length = st.attributeBuffer.length := by
  match refs with
  | [] => simp at h
  | [_] => simp at h
  | [_, _] => simp at h
  | ra :: rb :: rc :: rest =>
    obtain ⟨h1, h2, h3⟩ := fanLoop_counts fmt rest (resolveRef st ra) (resolveRef st rc)
      (addTriangleP2 fmt (resolveRef st ra) (resolveRef st rb) (resolveRef st rc) st)
    obtain ⟨g1, g2, g3⟩ :=
      addTriangleP2_counts fmt (resolveRef st ra) (resolveRef st rb) (resolveRef st rc) st
    refine ⟨?_, ?_, ?_⟩
    · rw [p2Face, h1, g1, countFaceTris]
      omega
    · rw [p2Face, h2, g2]
    · rw [p2Face, h3, g3]

theorem p2Step_counts (st : P2State) (l : ObjLine) (h : faceOk l = true) :
    (p2Step st l).numTriangles = st.numTriangles + lineTris l ∧
    (p2Step st l).indexBuffer.length = st.indexBuffer.length ∧
    (p2Step st l).attributeBuffer.length = st.attributeBuffer.length := by
  cases l with
  | f fmt refs =>
    have h3 : 3 ≤ refs.length := by simpa [faceOk] using h
    simpa [p2Step, lineTris] using p2Face_counts fmt refs st h3
  | v x y z => simp [p2Step, lineTris, List.length_set]
  | vn x y z => simp [p2Step, lineTris, List.length_set]
  | vt u w => simp [p2Step, lineTris, List.length_set]
  | mtllib p => simp [p2Step, lineTris]
  | usemtl nm => simp [p2Step, lineTris]
  | other => simp [p2Step, lineTris]

theorem pass2_fold_counts :
    ∀ (lines : List ObjLine) (st : P2State), ValidFaces lines →
    (lines.foldl p2Step st).numTriangles =
      st.numTriangles + (lines.map lineTris).sum ∧
    (lines.foldl p2Step st).indexBuffer.length = st.indexBuffer.length ∧
    (lines.foldl p2Step st).attributeBuffer.length = st.attributeBuffer.length
  | [], st, _ => by simp
  | l :: rest, st, hv => by
    have hl : faceOk l = true := hv l (by simp)
    have hrest : ValidFaces rest := fun x hx => hv x (by simp [hx])
    obtain ⟨h1, h2, h3⟩ := pass2_fold_counts rest (p2Step st l) hrest
    obtain ⟨g1, g2, g3⟩ := p2Step_counts st l hl
    refine ⟨?_, ?_, ?_⟩
    · rw [List.foldl_cons, h1, g1]
      simp
      omega
    · rw [List.foldl_cons, h2, g2]
    · rw [List.foldl_cons, h3, g3]

theorem importMaterialsM_triangles (mtlFs : String → Option (List MtlTok))
    (path : String) (m : Model) :
    ((importMaterialsM mtlFs path m).2).numberOfTriangles = m.numberOfTriangles := by
  rcases h : mtlFs path with _ | toks <;> simp [importMaterialsM, h]

theorem pass1_fold_count (mtlFs : String → Option (List MtlTok)) :
    ∀ (lines : List ObjLine) (m : Model),
    (lines.foldl (pass1Step mtlFs) m).numberOfTriangles =
      m.numberOfTriangles + (lines.map lineTris).sum
  | [], m => by simp
  | l :: rest, m => by
    rw [List.foldl_cons, pass1_fold_count mtlFs rest (pass1Step mtlFs m l)]
    cases l with
    | f fmt refs => simp [pass1Step, lineTris]; omega
    | mtllib p =>
      rw [show pass1Step mtlFs m (ObjLine.mtllib p) =
        (importMaterialsM mtlFs (m.directoryPath ++ p) m).2 from rfl]
      rw [importMaterialsM_triangles]
      simp [lineTris]
    | v x y z => simp [pass1Step, lineTris]
    | vn x y z => simp [pass1Step, lineTris]
    | vt u w => simp [pass1Step, lineTris]
    | usemtl nm => simp [pass1Step, lineTris]
    | other => simp [pass1Step, lineTris]

theorem resizeList_length {α : Type} (l : List α) (n : Nat) (z : α) :
    (resizeList l n z).length = n := by
  simp [resizeList]
  omega

theorem pass1Finish_triangles (m : Model) :
    (pass1Finish m).numberOfTriangles = m.numberOfTriangles := by
  by_cases h : m.numberOfMaterials = 0 <;> simp [pass1Finish, h]

theorem pass1Finish_buffers (m : Model) :
    (pass1Finish m).indexBuffer.length = m.numberOfTriangles * 3 ∧
    (pass1Finish m).attributeBuffer.length = m.numberOfTriangles := by
  by_cases h : m.numberOfMaterials = 0 <;> simp [pass1Finish, h, resizeList_length]

/-- C4: for every valid input (every face has ≥ 3 corners), the Pass-1
triangle count (`k - 2` per `k`-corner face) equals the number of triangles
Pass 2 emits, and the index/attribute buffers sized by Pass 1 keep exactly
those sizes through Pass 2 (no growth: Pass 2 only writes in place). -/
theorem claim_C4_pass1_sizes_match_pass2 (mtlFs : String → Option (List MtlTok))
    (lines : List ObjLine) (m : Model) (hv : ValidFaces lines) :
    (pass2Run lines (pass1 mtlFs lines m)).numTriangles =
      (pass1 mtlFs lines m).numberOfTriangles ∧
    (pass2Run lines (pass1 mtlFs lines m)).indexBuffer.length =
      3 * (pass1 mtlFs lines m).numberOfTriangles ∧
    (pass2Run lines (pass1 mtlFs lines m)).attributeBuffer.length =
      (pass1 mtlFs lines m).numberOfTriangles := by
  have hcount : (pass1 mtlFs lines m).numberOfTriangles = (lines.map lineTris).sum := by
    unfold pass1
    rw [pass1Finish_triangles, pass1_fold_count]
    simp [pass1Start]
  obtain ⟨hb1, hb2⟩ := pass1Finish_buffers (lines.foldl (pass1Step mtlFs) (pass1Start m))
  obtain ⟨h1, h2, h3⟩ := pass2_fold_counts lines (p2Init (pass1 mtlFs lines m)) hv
  have hinit : (p2Init (pass1 mtlFs lines m)).numTriangles = 0 := rfl
  have hidx : (p2Init (pass1 mtlFs lines m)).indexBuffer.length =
      (pass1 mtlFs lines m).numberOfTriangles * 3 := by
    show (pass1 mtlFs lines m).indexBuffer.length = _
    unfold pass1
    rw [pass1Finish_triangles]
    exact hb1
  have hattr : (p2Init (pass1 mtlFs lines m)).attributeBuffer.length =
      (pass1 mtlFs lines m).numberOfTriangles := by
    show (pass1 mtlFs lines m).attributeBuffer.length = _
    unfold pass1
    rw [pass1Finish_triangles]
    exact hb2
  refine ⟨?_, ?_, ?_⟩
  · rw [show pass2Run lines (pass1 mtlFs lines m) =
      lines.foldl p2Step (p2Init (pass1 mtlFs lines m)) from rfl, h1, hinit, hcount]
    simp
  · rw [show pass2Run lines (pass1 mtlFs lines m) =
      lines.foldl p2Step (p2Init (pass1 mtlFs lines m)) from rfl, h2, hidx]
    omega
  · rw [show pass2Run lines (pass1 mtlFs lines m) =
      lines.foldl p2Step (p2Init (pass1 mtlFs lines m)) from rfl, h3, hattr]

/-- Scenario input for the C4 witness: four positions and a quad face
(fan-triangulated into 2 triangles). -/
def c4Lines : List ObjLine :=
  [ObjLine.v 0 0 0, ObjLine.v 1 0 0, ObjLine.v 1 1 0, ObjLine.v 0 1 0,
   ObjLine.f FaceFormat.posOnly [⟨1, 0, 0⟩, ⟨2, 0, 0⟩, ⟨3, 0, 0⟩, ⟨4, 0, 0⟩]]

/-- Witness for C4 on the quad scenario. -/
theorem claim_C4_witness :
    ValidFaces c4Lines ∧
    ((pass2Run c4Lines (pass1 mtlFsNone c4Lines emptyModel)).numTriangles =
      (pass1 mtlFsNone c4Lines emptyModel).numberOfTriangles ∧
    (pass2Run c4Lines (pass1 mtlFsNone c4Lines emptyModel)).indexBuffer.length =
      3 * (pass1 mtlFsNone c4Lines emptyModel).numberOfTriangles ∧
    (pass2Run c4Lines (pass1 mtlFsNone c4Lines emptyModel)).attributeBuffer.length =
      (pass1 mtlFsNone c4Lines emptyModel).numberOfTriangles) :=
  ⟨by decide, claim_C4_pass1_sizes_match_pass2 mtlFsNone c4Lines emptyModel (by decide)⟩

/-!
## `Model::reverseWinding` (lines 1699-1725)

Swaps the second and third index of every index-buffer triple, and negates
every vertex's normal and tangent xyz (the tangent's 4th component, the
bitangent, the position and the texture coordinates are not touched).
Negation of a rational tracks `float` negation exactly.
-/

/-- The index-swap loop (`i += 3`, swap entries `i+1` and `i+2`); the
source relies on the invariant `len(indexBuffer) = 3 * triangleCount`, so
a trailing group of fewer than three entries never occurs (it is left
unchanged here). -/
def swapTriples : List Nat → List Nat
  | a :: b :: c :: rest => a :: c :: b :: swapTriples rest
  | l => l

/-- The per-vertex negation loop body. -/
def flipVertex (v : Vertex) : Vertex :=
  { v with nx := -v.nx, ny := -v.ny, nz := -v.nz,
           tanx := -v.tanx, tany := -v.tany, tanz := -v.tanz }

def reverseWinding (m : Model) : Model :=
  { m with indexBuffer := swapTriples m.indexBuffer,
           vertexBuffer := m.vertexBuffer.map flipVertex }

theorem swapTriples_involution : ∀ l : List Nat, swapTriples (swapTriples l) = l
  | [] => rfl
  | [_] => rfl
  | [_, _] => rfl
  | a :: b :: c :: rest => by
    rw [swapTriples, swapTriples, swapTriples_involution rest]

theorem flipVertex_flipVertex (v : Vertex) : flipVertex (flipVertex v) = v := by
  simp [flipVertex]

theorem map_flip_flip : ∀ vb : List Vertex, (vb.map flipVertex).map flipVertex = vb
  | [] => rfl
  | v :: rest => by
    rw [List.map_cons, List.map_cons, flipVertex_flipVertex, map_flip_flip rest]

theorem getD_map_flip : ∀ (vb : List Vertex) (i : Nat),
    (vb.map flipVertex).getD i Vertex.zero = flipVertex (vb.getD i Vertex.zero)
  | [], i => by cases i <;> simp [flipVertex, Vertex.zero]
  | v :: rest, 0 => by simp
  | v :: rest, i + 1 => by
    simpa using getD_map_flip rest i

/-- C10: `reverseWinding` is an involution — applying it twice restores the
index buffer, every vertex normal and every tangent xyz — and a single call
leaves each vertex's tangent handedness (`tangent[3]`), bitangent, position
and texture coordinates unchanged.  Stated under the Model invariant
`len(indexBuffer) = 3 * triangleCount` the source loop relies on. -/
theorem claim_C10_reverseWinding_involution (m : Model)
    (hlen : m.indexBuffer.length = 3 * m.numberOfTriangles) :
    reverseWinding (reverseWinding m) = m ∧
    (∀ i : Nat,
      ((reverseWinding m).vertexBuffer.getD i Vertex.zero).tanw =
        (m.vertexBuffer.getD i Vertex.zero).tanw ∧
      ((reverseWinding m).vertexBuffer.getD i Vertex.zero).bitx =
        (m.vertexBuffer.getD i Vertex.zero).bitx ∧
      ((reverseWinding m).vertexBuffer.getD i Vertex.zero).bity =
        (m.vertexBuffer.getD i Vertex.zero).bity ∧
      ((reverseWinding m).vertexBuffer.getD i Vertex.zero).bitz =
        (m.vertexBuffer.getD i Vertex.zero).bitz ∧
      ((reverseWinding m).vertexBuffer.getD i Vertex.zero).px =
        (m.vertexBuffer.getD i Vertex.zero).px ∧
      ((reverseWinding m).vertexBuffer.getD i Vertex.zero).py =
        (m.vertexBuffer.getD i Vertex.zero).py ∧
      ((reverseWinding m).vertexBuffer.getD i Vertex.zero).pz =
        (m.vertexBuffer.getD i Vertex.zero).pz ∧
      ((reverseWinding m).vertexBuffer.getD i Vertex.zero).tu =
        (m.vertexBuffer.getD i Vertex.zero).tu ∧
      ((reverseWinding m).vertexBuffer.getD i Vertex.zero).tv =
        (m.vertexBuffer.getD i Vertex.zero).tv) := by
  constructor
  · have hcomp : flipVertex ∘ flipVertex = id := funext flipVertex_flipVertex
    cases m
    simp [reverseWinding, swapTriples_involution, map_flip_flip, hcomp]
  · intro i
    have h : (reverseWinding m).vertexBuffer.getD i Vertex.zero =
        flipVertex (m.vertexBuffer.getD i Vertex.zero) := getD_map_flip _ i
    rw [h]
    exact ⟨rfl, rfl, rfl, rfl, rfl, rfl, rfl, rfl, rfl⟩

/-- Concrete model for the C10 witness: one triangle, one fully populated
vertex. -/
def c10Model : Model :=
  { emptyModel with
    numberOfTriangles := 1, indexBuffer := [0, 1, 2],
    vertexBuffer := [⟨1, 2, 3, 4, 5, 6, 7, 8, 9, 10, 11, -1, 12, 13, 14⟩] }

/-- Witness for C10. -/
theorem claim_C10_witness :
    c10Model.indexBuffer.length = 3 * c10Model.numberOfTriangles ∧
    (reverseWinding (reverseWinding c10Model) = c10Model ∧
    (∀ i : Nat,
      ((reverseWinding c10Model).vertexBuffer.getD i Vertex.zero).tanw =
        (c10Model.vertexBuffer.getD i Vertex.zero).tanw ∧
      ((reverseWinding c10Model).vertexBuffer.getD i Vertex.zero).bitx =
        (c10Model.vertexBuffer.getD i Vertex.zero).bitx ∧
      ((reverseWinding c10Model).vertexBuffer.getD i Vertex.zero).bity =
        (c10Model.vertexBuffer.getD i Vertex.zero).bity ∧
      ((reverseWinding c10Model).vertexBuffer.getD i Vertex.zero).bitz =
        (c10Model.vertexBuffer.getD i Vertex.zero).bitz ∧
      ((reverseWinding c10Model).vertexBuffer.getD i Vertex.zero).px =
        (c10Model.vertexBuffer.getD i Vertex.zero).px ∧
      ((reverseWinding c10Model).vertexBuffer.getD i Vertex.zero).py =
        (c10Model.vertexBuffer.getD i Vertex.zero).py ∧
      ((reverseWinding c10Model).vertexBuffer.getD i Vertex.zero).pz =
        (c10Model.vertexBuffer.getD i Vertex.zero).pz ∧
      ((reverseWinding c10Model).vertexBuffer.getD i Vertex.zero).tu =
        (c10Model.vertexBuffer.getD i Vertex.zero).tu ∧
      ((reverseWinding c10Model).vertexBuffer.getD i Vertex.zero).tv =
        (c10Model.vertexBuffer.getD i Vertex.zero).tv)) :=
  ⟨rfl, claim_C10_reverseWinding_involution c10Model rfl⟩

/-!
## Claim C6: bounds

Comparison definitions following the claim's words ("the minimum and
maximum position coordinate over all vertices"), to be compared with the
source-derived `boundsCore`.
-/

/-- Spec-side maximum of a coordinate list (0 for the empty list, which the
claim excludes). -/
def specMax : List ℚ → ℚ
  | [] => 0
  | x :: xs => xs.foldl max x

/-- Spec-side minimum of a coordinate list. -/
def specMin : List ℚ → ℚ
  | [] => 0
  | x :: xs => xs.foldl min x

/-- The bounds the claim describes: per-axis min/max over the vertices,
center = midpoint, extents = max − min, radius = largest extent. -/
def boundsSpec (vs : List Vertex) : BoundsRes :=
  let xmin := specMin (vs.map fun v => v.px)
  let xmax := specMax (vs.map fun v => v.px)
  let ymin := specMin (vs.map fun v => v.py)
  let ymax := specMax (vs.map fun v => v.py)
  let zmin := specMin (vs.map fun v => v.pz)
  let zmax := specMax (vs.map fun v => v.pz)
  { center := ((xmin + xmax) / 2, (ymin + ymax) / 2, (zmin + zmax) / 2),
    width := xmax - xmin,
    height := ymax - ymin,
    length := zmax - zmin,
    radius := max (max (xmax - xmin) (ymax - ymin)) (zmax - zmin) }

theorem ite_lt_min (m x : ℚ) : (if x < m then x else m) = min m x := by
  rcases le_or_lt m x with h | h
  · rw [if_neg (not_lt.2 h), min_eq_left h]
  · rw [if_pos h, min_eq_right h.le]

theorem ite_lt_max (m x : ℚ) : (if m < x then x else m) = max m x := by
  rcases le_or_lt x m with h | h
  · rw [if_neg (not_lt.2 h), max_eq_left h]
  · rw [if_pos h, max_eq_right h.le]

theorem boundsStep_eq (a : BoundsAcc) (v : Vertex) :
    boundsStep a v = ⟨min a.xMin v.px, max a.xMax v.px, min a.yMin v.py,
      max a.yMax v.py, min a.zMin v.pz, max a.zMax v.pz⟩ := by
  simp only [boundsStep, ite_lt_min, ite_lt_max]

theorem boundsFold_eq : ∀ (vs : List Vertex) (a : BoundsAcc),
    vs.foldl boundsStep a =
      ⟨vs.foldl (fun m v => min m v.px) a.xMin,
       vs.foldl (fun m v => max m v.px) a.xMax,
       vs.foldl (fun m v => min m v.py) a.yMin,
       vs.foldl (fun m v => max m v.py) a.yMax,
       vs.foldl (fun m v => min m v.pz) a.zMin,
       vs.foldl (fun m v => max m v.pz) a.zMax⟩
  | [], a => rfl
  | v :: rest, a => by
    rw [List.foldl_cons, boundsStep_eq, boundsFold_eq rest]
    simp

theorem foldl_min_pull : ∀ (xs : List ℚ) (a b : ℚ),
    xs.foldl min (min a b) = min a (xs.foldl min b)
  | [], a, b => rfl
  | c :: cs, a, b => by
    rw [List.foldl_cons, List.foldl_cons, min_assoc, foldl_min_pull cs]

theorem foldl_max_pull : ∀ (xs : List ℚ) (a b : ℚ),
    xs.foldl max (max a b) = max a (xs.foldl max b)
  | [], a, b => rfl
  | c :: cs, a, b => by
    rw [List.foldl_cons, List.foldl_cons, max_assoc, foldl_max_pull cs]

theorem foldl_min_spec (xs : List ℚ) (init : ℚ) (h : xs ≠ []) :
    xs.foldl min init = min init (specMin xs) := by
  match xs with
  | [] => exact absurd rfl h
  | x :: rest =>
    rw [List.foldl_cons, specMin, foldl_min_pull]

theorem foldl_max_spec (xs : List ℚ) (init : ℚ) (h : xs ≠ []) :
    xs.foldl max init = max init (specMax xs) := by
  match xs with
  | [] => exact absurd rfl h
  | x :: rest =>
    rw [List.foldl_cons, specMax, foldl_max_pull]

theorem axis_min_eq (f : Vertex → ℚ) (vs : List Vertex) (h : vs ≠ [])
    (hle : specMin (vs.map f) ≤ fltMax) :
    vs.foldl (fun m v => min m (f v)) fltMax = specMin (vs.map f) := by
  rw [← List.foldl_map f min vs fltMax,
    foldl_min_spec _ _ (by simpa using h), min_eq_right hle]

theorem axis_max_eq (f : Vertex → ℚ) (vs : List Vertex) (h : vs ≠ [])
    (hge : fltMin ≤ specMax (vs.map f)) :
    vs.foldl (fun m v => max m (f v)) fltMin = specMax (vs.map f) := by
  rw [← List.foldl_map f max vs fltMin,
    foldl_max_spec _ _ (by simpa using h), max_eq_right hge]

/-- C6 (amended): for every non-empty vertex buffer whose per-axis maximum
coordinate is at least `FLT_MIN = 2⁻¹²⁶` (the value the max accumulators
are initialized with — not −∞) and whose per-axis minimum is at most
`FLT_MAX`, `bounds` returns the per-axis min/max derived quantities the
claim describes: center = midpoint, extents = max − min, radius = largest
extent. -/
theorem claim_C6_bounds_amended (vs : List Vertex) (hne : vs ≠ [])
    (hx1 : fltMin ≤ specMax (vs.map fun v => v.px))
    (hx2 : specMin (vs.map fun v => v.px) ≤ fltMax)
    (hy1 : fltMin ≤ specMax (vs.map fun v => v.py))
    (hy2 : specMin (vs.map fun v => v.py) ≤ fltMax)
    (hz1 : fltMin ≤ specMax (vs.map fun v => v.pz))
    (hz2 : specMin (vs.map fun v => v.pz) ≤ fltMax) :
    boundsCore vs = boundsSpec vs := by
  have hx : (vs.foldl boundsStep ⟨fltMax, fltMin, fltMax, fltMin, fltMax, fltMin⟩).xMin =
      specMin (vs.map fun v => v.px) := by
    rw [boundsFold_eq]
    exact axis_min_eq _ vs hne hx2
  have hX : (vs.foldl boundsStep ⟨fltMax, fltMin, fltMax, fltMin, fltMax, fltMin⟩).xMax =
      specMax (vs.map fun v => v.px) := by
    rw [boundsFold_eq]
    exact axis_max_eq _ vs hne hx1
  have hy : (vs.foldl boundsStep ⟨fltMax, fltMin, fltMax, fltMin, fltMax, fltMin⟩).yMin =
      specMin (vs.map fun v => v.py) := by
    rw [boundsFold_eq]
    exact axis_min_eq _ vs hne hy2
  have hY : (vs.foldl boundsStep ⟨fltMax, fltMin, fltMax, fltMin, fltMax, fltMin⟩).yMax =
      specMax (vs.map fun v => v.py) := by
    rw [boundsFold_eq]
    exact axis_max_eq _ vs hne hy1
  have hz : (vs.foldl boundsStep ⟨fltMax, fltMin, fltMax, fltMin, fltMax, fltMin⟩).zMin =
      specMin (vs.map fun v => v.pz) := by
    rw [boundsFold_eq]
    exact axis_min_eq _ vs hne hz2
  have hZ : (vs.foldl boundsStep ⟨fltMax, fltMin, fltMax, fltMin, fltMax, fltMin⟩).zMax =
      specMax (vs.map fun v => v.pz) := by
    rw [boundsFold_eq]
    exact axis_max_eq _ vs hne hz1
  simp only [boundsCore, boundsSpec]
  rw [hx, hX, hy, hY, hz, hZ]

/-- C6 counterexample: on the single vertex (0,0,0) the claim forces
width = max − min = 0, but the max accumulator starts at
`FLT_MIN = 2⁻¹²⁶ > 0` and is never updated, so the computed width is
2⁻¹²⁶.  (All operations involved are exact in binary32 as well: the scan
only copies and compares, and `2⁻¹²⁶ − 0` is exact.) -/
theorem claim_C6_counterexample : boundsCore [Vertex.zero] ≠ boundsSpec [Vertex.zero] := by
  intro h
  have hw := congrArg BoundsRes.width h
  have h1 : (boundsCore [Vertex.zero]).width = fltMin := by
    norm_num [boundsCore, boundsStep, fltMin, fltMax, Vertex.zero]
  have h2 : (boundsSpec [Vertex.zero]).width = 0 := by
    norm_num [boundsSpec, specMin, specMax, Vertex.zero]
  rw [h1, h2] at hw
  norm_num [fltMin] at hw

/-- Vertices for the C6 witness. -/
def c6Verts : List Vertex :=
  [⟨4, 2, 1, 0, 0, 0, 0, 0, 0, 0, 0, 0, 0, 0, 0⟩,
   ⟨-2, 6, 1, 0, 0, 0, 0, 0, 0, 0, 0, 0, 0, 0, 0⟩]

/-- Witness for C6 (amended). -/
theorem claim_C6_bounds_amended_witness :
    c6Verts ≠ [] ∧
    fltMin ≤ specMax (c6Verts.map fun v => v.px) ∧
    specMin (c6Verts.map fun v => v.px) ≤ fltMax ∧
    fltMin ≤ specMax (c6Verts.map fun v => v.py) ∧
    specMin (c6Verts.map fun v => v.py) ≤ fltMax ∧
    fltMin ≤ specMax (c6Verts.map fun v => v.pz) ∧
    specMin (c6Verts.map fun v => v.pz) ≤ fltMax ∧
    boundsCore c6Verts = boundsSpec c6Verts := by
  have e1 : fltMin ≤ specMax (c6Verts.map fun v => v.px) := by
    norm_num [c6Verts, specMax, fltMin, max_def]
  have e2 : specMin (c6Verts.map fun v => v.px) ≤ fltMax := by
    norm_num [c6Verts, specMin, fltMax, min_def]
  have e3 : fltMin ≤ specMax (c6Verts.map fun v => v.py) := by
    norm_num [c6Verts, specMax, fltMin, max_def]
  have e4 : specMin (c6Verts.map fun v => v.py) ≤ fltMax := by
    norm_num [c6Verts, specMin, fltMax, min_def]
  have e5 : fltMin ≤ specMax (c6Verts.map fun v => v.pz) := by
    norm_num [c6Verts, specMax, fltMin, max_def]
  have e6 : specMin (c6Verts.map fun v => v.pz) ≤ fltMax := by
    norm_num [c6Verts, specMin, fltMax, min_def]
  exact ⟨by simp [c6Verts], e1, e2, e3, e4, e5, e6,
    claim_C6_bounds_amended c6Verts (by simp [c6Verts]) e1 e2 e3 e4 e5 e6⟩

/-!
## Claim C5: mesh builder
-/

/-- `m` is a maximal contiguous run of `attr`: it starts at triangle `s`
with `startIndex = 3 * s`, all its triangles carry its material id, and it
can be extended neither to the left nor to the right. -/
def IsMaxRun (attr : List Int) (m : MeshR) : Prop :=
  ∃ s, m.startIndex = 3 * s ∧ 1 ≤ m.triangleCount ∧
    s + m.triangleCount ≤ attr.length ∧
    (∀ j, j < m.triangleCount → attr.getD (s + j) 0 = m.materialId) ∧
    (s = 0 ∨ attr.getD (s - 1) 0 ≠ m.materialId) ∧
    (s + m.triangleCount = attr.length ∨
      attr.getD (s + m.triangleCount) 0 ≠ m.materialId)

/-- Mesh `m` covers triangle `t` (its index-buffer range contains `3 * t`). -/
def coversB (m : MeshR) (t : Nat) : Bool :=
  decide (m.startIndex ≤ 3 * t ∧ 3 * t < m.startIndex + 3 * m.triangleCount)

/-- Total triangle count of a run list. -/
def sumT (rs : List (Int × Nat)) : Nat :=
  (rs.map (fun p => p.2)).sum

theorem runsR_cons_nil (a : Int) {rest : List Int} (hr : runsR rest = []) :
    runsR (a :: rest) = [(a, 1)] := by
  rw [runsR, hr]

theorem runsR_cons_merge (a b : Int) (k : Nat) (rs : List (Int × Nat))
    {rest : List Int} (hr : runsR rest = (b, k) :: rs) (hab : a = b) :
    runsR (a :: rest) = (a, k + 1) :: rs := by
  rw [runsR, hr]
  show (if a = b then (a, k + 1) :: rs else (a, 1) :: (b, k) :: rs) = (a, k + 1) :: rs
  rw [if_pos hab]

theorem runsR_cons_split (a b : Int) (k : Nat) (rs : List (Int × Nat))
    {rest : List Int} (hr : runsR rest = (b, k) :: rs) (hab : ¬a = b) :
    runsR (a :: rest) = (a, 1) :: (b, k) :: rs := by
  rw [runsR, hr]
  show (if a = b then (a, k + 1) :: rs else (a, 1) :: (b, k) :: rs) =
    (a, 1) :: (b, k) :: rs
  rw [if_neg hab]

theorem runsR_pos : ∀ l : List Int, ∀ p ∈ runsR l, 1 ≤ p.2
  | [], p, hp => by simp [runsR] at hp
  | a :: rest, p, hp => by
    rcases hr : runsR rest with _ | ⟨⟨b, k⟩, rs⟩
    · rw [runsR_cons_nil a hr] at hp
      simp at hp
      simp [hp]
    · by_cases hab : a = b
      · rw [runsR_cons_merge a b k rs hr hab] at hp
        rcases List.mem_cons.1 hp with h | h
        · simp [h]
        · exact runsR_pos rest p (by rw [hr]; exact List.mem_cons_of_mem _ h)
      · rw [runsR_cons_split a b k rs hr hab] at hp
        rcases List.mem_cons.1 hp with h | h
        · simp [h]
        · exact runsR_pos rest p (by rw [hr]; exact h)

theorem runsR_eq_nil {l : List Int} (h : runsR l = []) : l = [] := by
  cases l with
  | nil => rfl
  | cons a rest =>
    rcases hr : runsR rest with _ | ⟨⟨b, k⟩, rs⟩
    · rw [runsR_cons_nil a hr] at h
      simp at h
    · by_cases hab : a = b
      · rw [runsR_cons_merge a b k rs hr hab] at h
        simp at h
      · rw [runsR_cons_split a b k rs hr hab] at h
        simp at h

theorem runsR_head {l : List Int} {b : Int} {k : Nat} {rs : List (Int × Nat)}
    (h : runsR l = (b, k) :: rs) : l.getD 0 0 = b := by
  cases l with
  | nil => simp [runsR] at h
  | cons a rest =>
    rcases hr : runsR rest with _ | ⟨⟨c, k'⟩, rs'⟩
    · rw [runsR_cons_nil a hr] at h
      simp at h
      rw [h.1.1]
      rfl
    · by_cases hac : a = c
      · rw [runsR_cons_merge a c k' rs' hr hac] at h
        simp at h
        rw [h.1.1]
        rfl
      · rw [runsR_cons_split a c k' rs' hr hac] at h
        simp at h
        rw [h.1.1]
        rfl

theorem runsR_sum : ∀ l : List Int, sumT (runsR l) = l.length
  | [] => rfl
  | a :: rest => by
    have ih := runsR_sum rest
    rcases hr : runsR rest with _ | ⟨⟨b, k⟩, rs⟩
    · have h0 : rest = [] := runsR_eq_nil hr
      subst h0
      rfl
    · rw [hr] at ih
      by_cases hab : a = b
      · rw [runsR_cons_merge a b k rs hr hab]
        simp [sumT] at ih ⊢
        omega
      · rw [runsR_cons_split a b k rs hr hab]
        simp [sumT] at ih ⊢
        omega

theorem withStarts_shift : ∀ (rs : List (Int × Nat)) (i : Nat),
    withStarts (i + 1) rs = (withStarts i rs).map
      (fun m => ⟨m.startIndex + 3, m.triangleCount, m.materialId⟩)
  | [], i => rfl
  | (a, k) :: rs', i => by
    rw [withStarts, withStarts, List.map_cons]
    have h1 : i + 1 + k = (i + k) + 1 := by omega
    have h3 : 3 * (i + 1) = 3 * i + 3 := by omega
    rw [h1, withStarts_shift rs' (i + k), h3]

theorem withStarts_start_lb : ∀ (rs : List (Int × Nat)) (i : Nat),
    ∀ m ∈ withStarts i rs, 3 * i ≤ m.startIndex
  | [], i, m, hm => by simp [withStarts] at hm
  | (a, k) :: rs', i, m, hm => by
    rw [withStarts] at hm
    rcases List.mem_cons.1 hm with h | h
    · rw [h]
    · have := withStarts_start_lb rs' (i + k) m h
      omega
theorem maxrun_lift (a : Int) {rest : List Int} {m : MeshR} (hm : IsMaxRun rest m)
    (h0 : m.startIndex = 0 → a ≠ m.materialId) :
    IsMaxRun (a :: rest) ⟨m.startIndex + 3, m.triangleCount, m.materialId⟩ := by
  obtain ⟨s, hs, hc, hlen, hcont, hleft, hright⟩ := hm
  refine ⟨s + 1, ?_, hc, ?_, ?_, ?_, ?_⟩
  · show m.startIndex + 3 = 3 * (s + 1)
    omega
  · show s + 1 + m.triangleCount ≤ (a :: rest).length
    simp only [List.length_cons]
    omega
  · show ∀ j, j < m.triangleCount → (a :: rest).getD (s + 1 + j) 0 = m.materialId
    intro j hj
    rw [show s + 1 + j = (s + j) + 1 by omega, List.getD_cons_succ]
    exact hcont j hj
  · show s + 1 = 0 ∨ (a :: rest).getD (s + 1 - 1) 0 ≠ m.materialId
    refine Or.inr ?_
    rcases Nat.eq_zero_or_pos s with hs0 | hs1
    · subst hs0
      have hz := h0 (by omega)
      show (a :: rest).getD (0 + 1 - 1) 0 ≠ m.materialId
      simpa using hz
    · rw [show s + 1 - 1 = (s - 1) + 1 by omega, List.getD_cons_succ]
      rcases hleft with h | h
      · exact absurd h (by omega)
      · exact h
  · show s + 1 + m.triangleCount = (a :: rest).length ∨
      (a :: rest).getD (s + 1 + m.triangleCount) 0 ≠ m.materialId
    rcases hright with h | h
    · refine Or.inl ?_
      simp only [List.length_cons]
      omega
    · refine Or.inr ?_
      rw [show s + 1 + m.triangleCount = (s + m.triangleCount) + 1 by omega,
        List.getD_cons_succ]
      exact h

/-- Every mesh `buildMeshes` constructs (before sorting) is a maximal
contiguous run of the attribute buffer. -/
theorem runs_maxrun : ∀ (l : List Int), ∀ m ∈ buildRuns l, IsMaxRun l m
  | [], m, hm => by simp [buildRuns, runsR, withStarts] at hm
  | a :: rest, m, hm => by
    rcases hr : runsR rest with _ | ⟨⟨b, k⟩, rs⟩
    · have h0 : rest = [] := runsR_eq_nil hr
      subst h0
      rw [buildRuns, runsR_cons_nil a hr, withStarts, withStarts] at hm
      have hm' : m = ⟨3 * 0, 1, a⟩ := by simpa using hm
      subst hm'
      refine ⟨0, rfl, Nat.le_refl 1, Nat.le_refl 1, ?_, Or.inl rfl, Or.inl rfl⟩
      intro j hj
      have hj' : j < 1 := hj
      have hj0 : j = 0 := by omega
      subst hj0
      rfl
    · by_cases hab : a = b
      · rw [buildRuns, runsR_cons_merge a b k rs hr hab, withStarts] at hm
        rcases List.mem_cons.1 hm with hhead | htail
        · subst hhead
          have hihead : IsMaxRun rest ⟨3 * 0, k, b⟩ := runs_maxrun rest _ (by
            rw [buildRuns, hr, withStarts]
            exact List.mem_cons_self _ _)
          obtain ⟨s', hs', hc', hlen', hcont', hleft', hright'⟩ := hihead
          have hs'' : (3 : Nat) * 0 = 3 * s' := hs'
          have hs0 : s' = 0 := by omega
          subst hs0
          have hcV : (1 : Nat) ≤ k := hc'
          have hlenV : 0 + k ≤ rest.length := hlen'
          refine ⟨0, rfl, ?_, ?_, ?_, Or.inl rfl, ?_⟩
          · show 1 ≤ k + 1
            omega
          · show 0 + (k + 1) ≤ (a :: rest).length
            simp only [List.length_cons]
            omega
          · show ∀ j, j < k + 1 → (a :: rest).getD (0 + j) 0 = a
            intro j hj
            cases j with
            | zero => rfl
            | succ jj =>
              have hcc : rest.getD (0 + jj) 0 = b := hcont' jj (show jj < k by omega)
              rw [Nat.zero_add] at hcc
              rw [Nat.zero_add, List.getD_cons_succ, hcc]
              exact hab.symm
          · show 0 + (k + 1) = (a :: rest).length ∨
              (a :: rest).getD (0 + (k + 1)) 0 ≠ a
            have hrV : 0 + k = rest.length ∨ rest.getD (0 + k) 0 ≠ b := hright'
            rcases hrV with h | h
            · refine Or.inl ?_
              simp only [List.length_cons]
              omega
            · refine Or.inr ?_
              rw [Nat.zero_add] at h
              rw [Nat.zero_add, List.getD_cons_succ, hab]
              exact h
        · have hshift : withStarts (0 + (k + 1)) rs = (withStarts k rs).map
              (fun m => ⟨m.startIndex + 3, m.triangleCount, m.materialId⟩) := by
            rw [show 0 + (k + 1) = k + 1 by omega, withStarts_shift]
          rw [hshift] at htail
          obtain ⟨m', hm', hmm⟩ := List.mem_map.1 htail
          have hm'mem : m' ∈ buildRuns rest := by
            rw [buildRuns, hr, withStarts]
            exact List.mem_cons_of_mem _ (by simpa using hm')
          have hm'run : IsMaxRun rest m' := runs_maxrun rest m' hm'mem
          have hlb := withStarts_start_lb rs k m' hm'
          have hpos : 1 ≤ k := runsR_pos rest (b, k) (by
            rw [hr]
            exact List.mem_cons_self _ _)
          rw [← hmm]
          exact maxrun_lift a hm'run (fun hz => absurd hz (by omega))
      · rw [buildRuns, runsR_cons_split a b k rs hr hab, withStarts] at hm
        rcases List.mem_cons.1 hm with hhead | htail
        · subst hhead
          have hb0 : rest.getD 0 0 = b := runsR_head hr
          refine ⟨0, rfl, Nat.le_refl 1, ?_, ?_, Or.inl rfl, Or.inr ?_⟩
          · show 0 + 1 ≤ (a :: rest).length
            simp only [List.length_cons]
            omega
          · intro j hj
            have hj' : j < 1 := hj
            have hj0 : j = 0 := by omega
            subst hj0
            rfl
          · show (a :: rest).getD (0 + 1) 0 ≠ a
            rw [List.getD_cons_succ, hb0]
            exact Ne.symm hab
        · rw [withStarts_shift ((b, k) :: rs) 0] at htail
          obtain ⟨m', hm', hmm⟩ := List.mem_map.1 htail
          have hm'run : IsMaxRun rest m' := runs_maxrun rest m' (by
            rw [buildRuns, hr]
            exact hm')
          rw [← hmm]
          refine maxrun_lift a hm'run ?_
          intro hz
          obtain ⟨s', hs', hc', hlen', hcont', hx1, hx2⟩ := hm'run
          have hs'' : m'.startIndex = 3 * s' := hs'
          have hcV : 1 ≤ m'.triangleCount := hc'
          have hs0 : s' = 0 := by omega
          subst hs0
          have hid : rest.getD (0 + 0) 0 = m'.materialId := hcont' 0 (by omega)
          rw [Nat.zero_add] at hid
          rw [runsR_head hr] at hid
          rw [← hid]
          exact hab

theorem withStarts_cover : ∀ (rs : List (Int × Nat)) (i t : Nat), i ≤ t →
    t < i + sumT rs →
    (withStarts i rs).countP (fun m => coversB m t) = 1
  | [], i, t, h1, h2 => by
    simp [sumT] at h2
    omega
  | (a, k) :: rs', i, t, h1, h2 => by
    rw [withStarts, List.countP_cons]
    by_cases hc : t < i + k
    · have hhead : coversB ⟨3 * i, k, a⟩ t = true := by
        simp [coversB]
        omega
      have htail : (withStarts (i + k) rs').countP (fun m => coversB m t) = 0 := by
        rw [List.countP_eq_zero]
        intro m hm
        have := withStarts_start_lb rs' (i + k) m hm
        simp [coversB]
        omega
      rw [htail, hhead]
      simp
    · have hhead : coversB ⟨3 * i, k, a⟩ t = false := by
        simp [coversB]
        omega
      have hsum : t < (i + k) + sumT rs' := by
        simp [sumT] at h2 ⊢
        omega
      rw [withStarts_cover rs' (i + k) t (by omega) hsum, hhead]
      simp

theorem insertDesc_perm (key : MeshR → ℚ) (m : MeshR) :
    ∀ l, List.Perm (insertDesc key m l) (m :: l)
  | [] => List.Perm.refl _
  | x :: xs => by
    rw [insertDesc]
    by_cases h : key x < key m
    · rw [if_pos h]
    · rw [if_neg h]
      exact ((insertDesc_perm key m xs).cons x).trans (List.Perm.swap m x xs)

theorem sortDesc_perm (key : MeshR → ℚ) : ∀ l, List.Perm (sortDesc key l) l
  | [] => List.Perm.refl _
  | x :: xs => (insertDesc_perm key x _).trans ((sortDesc_perm key xs).cons x)

theorem insertDesc_sorted (key : MeshR → ℚ) (m : MeshR) :
    ∀ l, List.Sorted (fun p q => key q ≤ key p) l →
      List.Sorted (fun p q => key q ≤ key p) (insertDesc key m l)
  | [], _ => List.sorted_singleton m
  | x :: xs, h => by
    obtain ⟨hx, hxs⟩ := List.sorted_cons.1 h
    rw [insertDesc]
    by_cases hcmp : key x < key m
    · rw [if_pos hcmp]
      refine List.sorted_cons.2 ⟨?_, h⟩
      intro b hb
      rcases List.mem_cons.1 hb with rfl | hb
      · exact hcmp.le
      · exact (hx b hb).trans hcmp.le
    · rw [if_neg hcmp]
      refine List.sorted_cons.2 ⟨?_, insertDesc_sorted key m xs hxs⟩
      intro b hb
      have hb' : b = m ∨ b ∈ xs := by
        have := (insertDesc_perm key m xs).mem_iff.1 hb
        simpa using this
      rcases hb' with rfl | hb'
      · exact not_lt.1 hcmp
      · exact hx b hb'

theorem sortDesc_sorted (key : MeshR → ℚ) :
    ∀ l, List.Sorted (fun p q => key q ≤ key p) (sortDesc key l)
  | [] => List.sorted_nil
  | x :: xs => insertDesc_sorted key x _ (sortDesc_sorted key xs)

/-- C5: after `buildMeshes`, every Mesh is a maximal contiguous run of the
per-triangle material-id buffer (`startIndex = runStartTriangle * 3`,
`triangleCount` = run length), the meshes cover every triangle exactly once
with no overlap, and the list is ordered by non-increasing material alpha.
Hypothesis: every attribute-buffer entry is a valid material index (which
every import establishes: `activeMaterial` is always a valid index). -/
theorem claim_C5_buildMeshes (mats : List Material) (attr : List Int)
    (hattr : ∀ x ∈ attr, 0 ≤ x ∧ x.toNat < mats.length) :
    (∀ m ∈ buildMeshesCore mats attr, IsMaxRun attr m) ∧
    (∀ t, t < attr.length →
      (buildMeshesCore mats attr).countP (fun m => coversB m t) = 1) ∧
    List.Sorted (fun m1 m2 => meshKey mats m2 ≤ meshKey mats m1)
      (buildMeshesCore mats attr) := by
  have hperm : List.Perm (buildMeshesCore mats attr) (buildRuns attr) :=
    sortDesc_perm _ _
  refine ⟨?_, ?_, sortDesc_sorted _ _⟩
  · intro m hm
    exact runs_maxrun attr m (hperm.mem_iff.1 hm)
  · intro t ht
    rw [List.Perm.countP_eq _ hperm, buildRuns]
    exact withStarts_cover (runsR attr) 0 t (by omega) (by rw [runsR_sum]; omega)

/-- Materials and attribute buffer for the C5 witness: two materials (the
second one half transparent), four triangles in runs [0,0], [1], [0]. -/
def c5Mats : List Material :=
  [mkDefaultMaterial "a", { mkDefaultMaterial "b" with alpha := 1/2 }]

def c5Attr : List Int := [0, 0, 1, 0]

/-- Witness for C5. -/
theorem claim_C5_witness :
    (∀ x ∈ c5Attr, 0 ≤ x ∧ x.toNat < c5Mats.length) ∧
    ((∀ m ∈ buildMeshesCore c5Mats c5Attr, IsMaxRun c5Attr m) ∧
    (∀ t, t < c5Attr.length →
      (buildMeshesCore c5Mats c5Attr).countP (fun m => coversB m t) = 1) ∧
    List.Sorted (fun m1 m2 => meshKey c5Mats m2 ≤ meshKey c5Mats m1)
      (buildMeshesCore c5Mats c5Attr)) :=
  ⟨by decide, claim_C5_buildMeshes c5Mats c5Attr (by decide)⟩

end ModelObj
